import Mathlib

/-!
Verification development for the MS-Word paste normalizer
(src/src/normalizer.ts of lexical-paste-from-word).

The DOM tree abstraction is modelled as an arena of nodes (the spec treats
the tree/DOM library as an external collaborator).  All string manipulation
is modelled over explicit character lists so that the JavaScript string
operations (split, trim, regex-literal searches) can be embedded faithfully.
JavaScript runtime errors (TypeError on undefined property access,
RangeError on negative array length) are modelled with the Except monad.
-/

/-- JavaScript regex class \s and String.prototype.trim whitespace set. -/
def jsWhitespace (c : Char) : Bool :=
  c == ' ' || c == '\t' || c == '\n' || c == '\r' ||
  c == '\x0b' || c == '\x0c' || c == '\u00a0' ||
  c == '\u1680' || ('\u2000' ≤ c && c ≤ '\u200a') ||
  c == '\u2028' || c == '\u2029' || c == '\u202f' ||
  c == '\u205f' || c == '\u3000' || c == '\ufeff'

/-- JavaScript regex class \w (ASCII letters, digits, underscore). -/
def jsWordChar (c : Char) : Bool :=
  c.isAlpha || c.isDigit || c == '_'

/-- ASCII lowercasing of a character (String.prototype.toLowerCase on our inputs). -/
def jsLowerChar (c : Char) : Char := c.toLower

/-- Case-insensitive character comparison, as done by a regex with the i flag. -/
def ciEq (a b : Char) : Bool := jsLowerChar a == jsLowerChar b

/-- JavaScript String.prototype.trim over a character list. -/
def jsTrim (cs : List Char) : List Char :=
  ((cs.dropWhile jsWhitespace).reverse.dropWhile jsWhitespace).reverse

/-- JavaScript String.prototype.split with a one-character separator:
"a;b".split(';') = ["a","b"], "".split(';') = [""]. -/
def splitChar (sep : Char) : List Char → List (List Char)
  | [] => [[]]
  | c :: cs =>
    let rest := splitChar sep cs
    if c == sep then [] :: rest
    else match rest with
      | [] => [[c]]
      | r :: rs => (c :: r) :: rs

/-- Array.prototype.join with a one-character separator. -/
def joinChar (sep : Char) : List (List Char) → List Char
  | [] => []
  | [x] => x
  | x :: xs => x ++ sep :: joinChar sep xs

/-- Does the needle occur at this exact position (case-insensitive)? -/
def ciMatchHead : List Char → List Char → Bool
  | [], _ => true
  | _ :: _, [] => false
  | n :: ns, h :: hs => ciEq n h && ciMatchHead ns hs

/-- Case-sensitive prefix test. -/
def csMatchHead : List Char → List Char → Bool
  | [], _ => true
  | _ :: _, [] => false
  | n :: ns, h :: hs => (n == h) && csMatchHead ns hs

/-- String.prototype.includes (case-sensitive substring search). -/
def csContains (needle : List Char) : List Char → Bool
  | [] => csMatchHead needle []
  | c :: cs => csMatchHead needle (c :: cs) || csContains needle cs

/-- The test performed by the regex literal /\bmso/gi on a class or style-key
name: the letters m-s-o occur (case-insensitively) at the start of the string
or right after a non-word character. -/
def hasBMso (s : String) : Bool :=
  go none s.toList
where
  go : Option Char → List Char → Bool
    | prev, c :: cs =>
      ((prev.elim true (fun p => !jsWordChar p)) && ciMatchHead ['m', 's', 'o'] (c :: cs))
        || go (some c) cs
    | _, [] => false

/-- JavaScript parseInt on a non-empty digit string. -/
def jsParseDigits (cs : List Char) : Int :=
  Int.ofNat (cs.foldl (fun acc c => acc * 10 + (c.toNat - '0'.toNat)) 0)

/-- ASCII uppercasing (DOM tagName reporting for HTML elements). -/
def jsUpper (s : String) : String := ⟨s.toList.map Char.toUpper⟩

/-- ASCII lowercasing of a whole string. -/
def jsLower (s : String) : String := ⟨s.toList.map jsLowerChar⟩

/-! ## The DOM arena

A document is an arena of nodes addressed by their index; `root` is the body
element.  Children lists hold node indices (childNodes, i.e. both elements
and texts).  Parent and sibling links are derived from the children lists. -/

inductive DomNode where
  | element (tag : String) (style : String) (classes : List String)
      (attrs : List (String × String)) (children : List Nat)
  | text (data : String)
deriving Repr, DecidableEq

structure Doc where
  nodes : List DomNode
  root : Nat
deriving Repr, DecidableEq

def Doc.getNode (d : Doc) (i : Nat) : Option DomNode := d.nodes.get? i

def Doc.setNode (d : Doc) (i : Nat) (n : DomNode) : Doc :=
  { d with nodes := d.nodes.set i n }

def DomNode.isElem : DomNode → Bool
  | .element .. => true
  | .text _ => false

/-- tagName of an element node (undefined on a text node, hence Option). -/
def Doc.tagOf (d : Doc) (i : Nat) : Option String :=
  match d.getNode i with
  | some (.element tag _ _ _ _) => some tag
  | _ => none

def Doc.styleOf (d : Doc) (i : Nat) : String :=
  match d.getNode i with
  | some (.element _ style _ _ _) => style
  | _ => ""

def Doc.classesOf (d : Doc) (i : Nat) : List String :=
  match d.getNode i with
  | some (.element _ _ classes _ _) => classes
  | _ => []

def Doc.attrsOf (d : Doc) (i : Nat) : List (String × String) :=
  match d.getNode i with
  | some (.element _ _ _ attrs _) => attrs
  | _ => []

/-- element.getAttribute(name) for the plain attributes we model. -/
def Doc.getAttr (d : Doc) (i : Nat) (name : String) : Option String :=
  (d.attrsOf i).lookup name

def Doc.childNodesOf (d : Doc) (i : Nat) : List Nat :=
  match d.getNode i with
  | some (.element _ _ _ _ ch) => ch
  | _ => []

/-- element.children: the element-only child list. -/
def Doc.elemChildrenOf (d : Doc) (i : Nat) : List Nat :=
  (d.childNodesOf i).filter (fun c => (d.getNode c).elim false DomNode.isElem)

/-- node.parentNode / node.parentElement: the node whose children list holds i. -/
def Doc.parentOf (d : Doc) (i : Nat) : Option Nat :=
  (List.range d.nodes.length).find? (fun p => (d.childNodesOf p).contains i)

/-- node.previousSibling: the node right before i in its parent's childNodes. -/
def Doc.previousSiblingOf (d : Doc) (i : Nat) : Option Nat :=
  match d.parentOf i with
  | none => none
  | some p =>
    let ch := d.childNodesOf p
    match ch.findIdx? (· == i) with
    | some 0 => none
    | some (k + 1) => ch.get? k
    | none => none

def Doc.mapNodeAt (d : Doc) (i : Nat) (f : DomNode → DomNode) : Doc :=
  match d.getNode i with
  | some n => d.setNode i (f n)
  | none => d

def Doc.setChildrenAt (d : Doc) (i : Nat) (ch : List Nat) : Doc :=
  d.mapNodeAt i (fun n =>
    match n with
    | .element tag style classes attrs _ => .element tag style classes attrs ch
    | t => t)

/-- Detach a node from every children list (a DOM node has at most one parent;
insertion operations first detach the node being inserted). -/
def Doc.detach (d : Doc) (i : Nat) : Doc :=
  { d with
    nodes := d.nodes.map (fun n =>
      match n with
      | .element tag style classes attrs ch =>
          .element tag style classes attrs (ch.filter (· ≠ i))
      | t => t) }

/-- parent.appendChild(child): detach the child, then append it. -/
def Doc.appendChild (d : Doc) (parent child : Nat) : Doc :=
  let d := d.detach child
  d.setChildrenAt parent (d.childNodesOf parent ++ [child])

/-- parent.insertBefore(newChild, ref): detach, then insert before ref
(appends when ref is not among the children; unreachable at the call site). -/
def Doc.insertBefore (d : Doc) (parent newChild ref : Nat) : Doc :=
  let d := d.detach newChild
  let ch := d.childNodesOf parent
  let ch' :=
    match ch.findIdx? (· == ref) with
    | some k => ch.take k ++ newChild :: ch.drop k
    | none => ch ++ [newChild]
  d.setChildrenAt parent ch'

/-- parent.removeChild(child): drop the child from the parent's children list. -/
def Doc.removeChild (d : Doc) (parent child : Nat) : Doc :=
  d.setChildrenAt parent ((d.childNodesOf parent).filter (· ≠ child))

/-- document.createElement(tag): a fresh element (tagName is uppercased by
the DOM for HTML elements), no style, no classes, no attributes, no children. -/
def Doc.createElement (d : Doc) (tag : String) : Doc × Nat :=
  ({ d with nodes := d.nodes ++ [.element (jsUpper tag) "" [] [] []] }, d.nodes.length)

/-- Pre-order subtree listing (node itself first), fuel-bounded; the fuel is
always instantiated with the arena size, which bounds the depth of any
well-formed tree. -/
def Doc.subtreeAux (d : Doc) : Nat → Nat → List Nat
  | 0, _ => []
  | fuel + 1, i => i :: (d.childNodesOf i).flatMap (d.subtreeAux fuel)

/-- doc.querySelectorAll('*'): every element of the document in document
order (the body root included; its tag filters it out at every use site). -/
def Doc.allElements (d : Doc) : List Nat :=
  (d.subtreeAux d.nodes.length d.root).filter
    (fun i => (d.getNode i).elim false DomNode.isElem)

/-- element.querySelectorAll(sel) scoped to a subtree: the proper descendants
of the element, in document order. -/
def Doc.descendants (d : Doc) (i : Nat) : List Nat :=
  (d.childNodesOf i).flatMap (d.subtreeAux d.nodes.length)

def Doc.textContentAux (d : Doc) : Nat → Nat → String
  | 0, _ => ""
  | fuel + 1, i =>
    match d.getNode i with
    | some (.text s) => s
    | some (.element _ _ _ _ ch) =>
        String.join (ch.map (d.textContentAux fuel))
    | none => ""

/-- node.textContent (never null for elements and texts). -/
def Doc.textContent (d : Doc) (i : Nat) : String :=
  d.textContentAux d.nodes.length i

/-! ## Style-string parsing helpers -/

/-- Insert-or-overwrite into an association list (JavaScript object write). -/
def setAssoc : List (String × String) → String → String → List (String × String)
  | [], k, v => [(k, v)]
  | (k', v') :: tl, k, v =>
    if k' == k then (k, v) :: tl else (k', v') :: setAssoc tl k v

/-- convertStyleToObject (normalizer.ts:278): split the inline style on
semicolons, trim each declaration, split it on colons, and record the first
two trimmed parts when both are non-empty. -/
def convertStyleToObject (styleString : String) : List (String × String) :=
  if styleString == "" then []
  else
    let declarations := (splitChar ';' styleString.toList).map jsTrim
    declarations.foldl (fun styleObject decl =>
      let parts := (splitChar ':' decl).map jsTrim
      match parts with
      | property :: value :: _ =>
        if property ≠ [] && value ≠ [] then setAssoc styleObject ⟨property⟩ ⟨value⟩
        else styleObject
      | _ => styleObject) []

/-- The idMatch regex /(^|\s{1,100})l(\d+)/i of getListItemData
(normalizer.ts:337): a case-insensitive letter l at the start of the value or
right after whitespace, followed by at least one digit; the digits are the
capture. -/
def listIdMatch (cs : List Char) : Option (List Char) := go none cs
where
  go : Option Char → List Char → Option (List Char)
    | _, [] => none
    | prev, c :: cs' =>
      (if (prev.elim true jsWhitespace) && ciEq c 'l' then
        let digits := cs'.takeWhile Char.isDigit
        if digits ≠ [] then some digits else none
       else none).elim (go (some c) cs') some

/-- Shared shape of the orderMatch and indentMatch regexes of getListItemData
(normalizer.ts:338-339): a case-insensitive literal followed by at least one
digit, anywhere in the value (the \s{0,100} prefix admits zero whitespace and
is therefore irrelevant to matching); the digits are the capture. -/
def ciNeedleDigits (needle : List Char) : List Char → Option (List Char)
  | [] => none
  | c :: cs =>
    (if ciMatchHead needle (c :: cs) then
      let digits := ((c :: cs).drop needle.length).takeWhile Char.isDigit
      if digits ≠ [] then some digits else none
     else none).elim (ciNeedleDigits needle cs) some

structure ListItemData where
  id : Option String
  order : Option String
  indent : Option Nat
deriving Repr, DecidableEq

/-- getListItemData (normalizer.ts:330). -/
def getListItemData (styles : List (String × String)) : ListItemData :=
  match styles.lookup "mso-list" with
  | none => { id := none, order := none, indent := none }
  | some listStyle =>
    let cs := listStyle.toList
    let idMatch := listIdMatch cs
    let orderMatch := ciNeedleDigits ['l', 'f', 'o'] cs
    let indentMatch := ciNeedleDigits ['l', 'e', 'v', 'e', 'l'] cs
    match idMatch, orderMatch, indentMatch with
    | some i, some o, some lv =>
        { id := some ⟨i⟩, order := some ⟨o⟩, indent := some (jsParseDigits lv).toNat }
    | _, _, _ => { id := none, order := none, indent := some 1 }

structure ListLikeElement extends ListItemData where
  element : Nat
deriving Repr, DecidableEq

/-- isList (normalizer.ts:537).  It is applied to previousSibling nodes,
which may be text nodes: a text node's tagName is undefined and reading
tagName.toLowerCase() raises a TypeError; calling it on a null parent raises
as well.  Both are modelled as errors. -/
def isList (d : Doc) (i : Option Nat) : Except String Bool :=
  match i with
  | none => .error "TypeError: Cannot read properties of null (reading tagName)"
  | some n =>
    match d.tagOf n with
    | some tag => .ok (jsLower tag == "ul" || jsLower tag == "ol")
    | none => .error "TypeError: Cannot read properties of undefined (reading toLowerCase)"

/-- isListContinuation (normalizer.ts:524). -/
def isListContinuation (d : Doc) (element : Nat) : Except String Bool :=
  match d.previousSiblingOf element with
  | none => isList d (d.parentOf element)
  | some previousSibling => isList d (some previousSibling)

def candidateTags : List String :=
  ["p", "h1", "h2", "h3", "h4", "h5", "h6", "li", "div"]

/-- MSWordNormalizer.findAllItemLikeElements (normalizer.ts:19). -/
def findAllItemLikeElements (d : Doc) : List ListLikeElement :=
  d.allElements.foldl (fun res item =>
    let tagName := jsLower ((d.tagOf item).getD "")
    if !(candidateTags.contains tagName) then res
    else
      let style := convertStyleToObject (d.styleOf item)
      if (style.lookup "mso-list").isSome then
        match d.parentOf item with
        | none => res
        | some parent =>
          -- the parent is an element of the arena, so isList cannot fail here
          if (isList d (some parent)).toOption == some true then res
          else res ++ [{ toListItemData := getListItemData style, element := item }]
      else res) []

/-! ## The style interpreter (detectListStyle and its regexes) -/

def skipWs (cs : List Char) : List Char := cs.dropWhile jsWhitespace

/-- The regexp @list l<id>:level<indent>\s*({[^}]*}) built at normalizer.ts:355:
scan for the literal key, optional whitespace, then an opening brace; the
capture is the brace plus everything up to (excluding) the closing brace. -/
def findListBlock (key : List Char) : List Char → Option (List Char)
  | [] => none
  | c :: cs =>
    (if ciMatchHead key (c :: cs) then
       match skipWs ((c :: cs).drop key.length) with
       | '\x7b' :: body => some ('\x7b' :: body.takeWhile (· ≠ '\x7d'))
       | _ => none
     else none).elim (findListBlock key cs) some

def numberFormatNeedle : List Char := "mso-level-number-format:".toList

/-- The regex /mso-level-number-format:([^;]{0,100});/gi (normalizer.ts:356): at an
occurrence of the literal, the capture is the run of non-semicolon characters
before the next semicolon, provided the semicolon occurs within 100
characters; otherwise scanning continues. -/
def findNumberFormat : List Char → Option (List Char)
  | [] => none
  | c :: cs =>
    (if ciMatchHead numberFormatNeedle (c :: cs) then
       let rest := (c :: cs).drop numberFormatNeedle.length
       let run := rest.takeWhile (· ≠ ';')
       if run.length ≤ 100 && rest.drop run.length ≠ [] then some run else none
     else none).elim (findNumberFormat cs) some

def startAtNeedle : List Char := "mso-level-start-at:".toList

/-- The regex /mso-level-start-at:\s{0,100}([0-9]{0,10})\s{0,100};/gi
(normalizer.ts:357): possibly-empty digits framed by bounded whitespace and a
closing semicolon; the digits are the capture. -/
def findStartAt : List Char → Option (List Char)
  | [] => none
  | c :: cs =>
    (if ciMatchHead startAtNeedle (c :: cs) then
       let rest := (c :: cs).drop startAtNeedle.length
       let ws1 := rest.takeWhile jsWhitespace
       let r1 := rest.drop ws1.length
       let digits := r1.takeWhile Char.isDigit
       let r2 := r1.drop digits.length
       let ws2 := r2.takeWhile jsWhitespace
       let r3 := r2.drop ws2.length
       if ws1.length ≤ 100 && digits.length ≤ 10 && ws2.length ≤ 100 &&
          (match r3 with | ';' :: _ => true | _ => false) then
         some digits
       else none
     else none).elim (findStartAt cs) some

/-- JS regex . : any character except a line terminator. -/
def jsDotChar (c : Char) : Bool :=
  c ≠ '\n' && c ≠ '\r' && c ≠ '\u2028' && c ≠ '\u2029'

/-- The tail  mso-level-text:"%\d\\.  of the legal-list regex
(normalizer.ts:358), searched inside a rule body: the scan stops at an
opening brace (the [^{]* segment of the regex cannot cross one). -/
def legalTextScan : List Char → Bool
  | [] => false
  | c :: cs =>
    if c == '\x7b' then false
    else
      (ciMatchHead "mso-level-text:\"%".toList (c :: cs) &&
        (match (c :: cs).drop 17 with
         | dch :: '\\' :: e :: _ => dch.isDigit && jsDotChar e
         | _ => false))
      || legalTextScan cs

/-- The regex @list\s+l<id>:level\d\s*{[^{]*mso-level-text:"%\d\\. (normalizer.ts:358). -/
def legalStyleListScan (idStr : List Char) : List Char → Bool
  | [] => false
  | c :: cs =>
    (if ciMatchHead "@list".toList (c :: cs) then
       let r0 := (c :: cs).drop 5
       let ws := r0.takeWhile jsWhitespace
       if ws == [] then false
       else
         let r1 := r0.drop ws.length
         if ciMatchHead ("l".toList ++ idStr ++ ":level".toList) r1 then
           match r1.drop (idStr.length + 7) with
           | dch :: r2 =>
             dch.isDigit &&
             (match skipWs r2 with
              | '\x7b' :: body => legalTextScan body
              | _ => false)
           | [] => false
         else false
     else false)
    || legalStyleListScan idStr cs

/-- The tail  mso-level-number-format:  of the multi-level regex, searched
inside a rule body (again the [^{]* segment stops at an opening brace). -/
def multiFormatScan : List Char → Bool
  | [] => false
  | c :: cs =>
    if c == '\x7b' then false
    else ciMatchHead numberFormatNeedle (c :: cs) || multiFormatScan cs

/-- The regex @list l<id>:level\d\s*{[^{]*mso-level-number-format: (normalizer.ts:359). -/
def multiLevelScan (idStr : List Char) : List Char → Bool
  | [] => false
  | c :: cs =>
    (if ciMatchHead ("@list l".toList ++ idStr ++ ":level".toList) (c :: cs) then
       match (c :: cs).drop (idStr.length + 13) with
       | dch :: r2 =>
         dch.isDigit &&
         (match skipWs r2 with
          | '\x7b' :: body => multiFormatScan body
          | _ => false)
       | [] => false
     else false)
    || multiLevelScan idStr cs

/-- mapListStyleDefinition (normalizer.ts:462). -/
def mapListStyleDefinition (value : String) : Option String :=
  if csMatchHead "arabic-leading-zero".toList value.toList then some "decimal-leading-zero"
  else if value == "alpha-upper" then some "upper-alpha"
  else if value == "alpha-lower" then some "lower-alpha"
  else if value == "roman-upper" then some "upper-roman"
  else if value == "roman-lower" then some "lower-roman"
  else if value == "circle" || value == "disc" || value == "square" then some value
  else none

/-- findListMarkerNode (normalizer.ts:442).  element.children contains
elements only, so the tagName of children[0] is never the string "#text":
the guard copied from the upstream view-based implementation is dead code
here, and a leading bare text child does not stop the search. -/
def findListMarkerNode (d : Doc) (element : Nat) : Option Nat :=
  let children := d.elemChildrenOf element
  if (children.get? 0).map (fun c => jsLower ((d.tagOf c).getD "")) == some "#text" then
    none
  else
    children.find? (fun childNode =>
      let t := jsLower ((d.tagOf childNode).getD "")
      t == "element" || t == "span")

/-- The marker-glyph mapping of findBulletedListStyle (normalizer.ts:427-439). -/
def bulletFromMarker (d : Doc) (element : Nat) : Option String :=
  match findListMarkerNode d element with
  | none => none
  | some listMarkerElement =>
    let listMarker := d.textContent listMarkerElement
    if listMarker == "o" then some "circle"
    else if ((listMarker.toList.get? 0).map Char.toNat) == some 183 then some "disc"
    else if listMarker == "§" then some "square"
    else none

/-- findBulletedListStyle (normalizer.ts:414).  Reading parentElement! of a
parentless list item would be a TypeError, modelled as an error. -/
def findBulletedListStyle (d : Doc) (element : Nat) : Except String (Option String) :=
  if jsLower ((d.tagOf element).getD "") == "li" then
    match d.parentOf element with
    | none => .error "TypeError: Cannot read properties of null (reading tagName)"
    | some parent =>
      if jsLower ((d.tagOf parent).getD "") == "ul" && (d.getAttr parent "type").isSome then
        .ok (d.getAttr parent "type")
      else .ok (bulletFromMarker d element)
  else .ok (bulletFromMarker d element)

structure ListStyleDescriptor where
  type : String
  startIndex : Option Int
  style : Option String
  isLegalStyleList : Bool
deriving Repr, DecidableEq

/-- detectListStyle (normalizer.ts:354).  The template interpolation of an
undefined id or indent prints the string "undefined". -/
def detectListStyle (d : Doc) (listLikeItem : ListLikeElement) (stylesString : String) :
    Except String ListStyleDescriptor := do
  let idStr := (listLikeItem.id.getD "undefined").toList
  let indentStr := (listLikeItem.indent.elim "undefined" toString).toList
  let key := "@list l".toList ++ idStr ++ ":level".toList ++ indentStr
  let styles := stylesString.toList
  let islegalStyleList := legalStyleListScan idStr styles && !multiLevelScan idStr styles
  match findListBlock key styles with
  | none =>
      -- no matching rule: decimal ordered defaults (and decimal maps to null)
      return { type := "ol", startIndex := none,
               style := mapListStyleDefinition "decimal",
               isLegalStyleList := islegalStyleList }
  | some block =>
      let (listStyleType, type0) :=
        match findNumberFormat block with
        | some captured =>
          if captured ≠ [] then
            let t : String := ⟨jsTrim captured⟩
            (t, if t ≠ "bullet" && t ≠ "image" then "ol" else "ul")
          else ("decimal", "ol")
        | none => ("decimal", "ol")
      if listStyleType == "bullet" then
        let bulletedStyle ← findBulletedListStyle d listLikeItem.element
        let listStyleType :=
          match bulletedStyle with
          | some s => if s ≠ "" then s else listStyleType
          | none => listStyleType
        return { type := if islegalStyleList then "ol" else type0,
                 startIndex := none,
                 style := mapListStyleDefinition listStyleType,
                 isLegalStyleList := islegalStyleList }
      else
        let startIndex :=
          match findStartAt block with
          | some ds => if ds ≠ [] then some (jsParseDigits ds) else none
          | none => none
        return { type := if islegalStyleList then "ol" else type0,
                 startIndex := startIndex,
                 style := mapListStyleDefinition listStyleType,
                 isLegalStyleList := islegalStyleList }

/-! ## The list reconstruction engine -/

/-- One reconstruction stack entry (the object written at normalizer.ts:117).
`depth` is a ghost field recording the normalized indent at which the frame
was pushed; it is used only to state the stack invariant. -/
structure Frame where
  id : Option String
  order : Option String
  indent : Option Nat
  element : Nat
  listElement : Nat
  listItemElements : List Nat
  depth : Nat
deriving Repr, DecidableEq

/-- The reconstruction stack; a none entry models a JavaScript array hole. -/
abbrev Stack := List (Option Frame)

/-- Reading stack[i] with JS semantics: a negative or out-of-range index, or a hole,
reads as undefined. -/
def stackGet (s : Stack) (i : Int) : Option Frame :=
  if i < 0 then none else ((s.get? i.toNat).join)

/-- Assigning stack.length = n with JS semantics: a negative length is a RangeError,
a larger one pads with holes, a smaller one truncates. -/
def setStackLength (s : Stack) (n : Int) : Except String Stack :=
  if n < 0 then .error "RangeError: Invalid array length"
  else if n.toNat ≤ s.length then .ok (s.take n.toNat)
  else .ok (s ++ List.replicate (n.toNat - s.length) none)

/-- Writing stack[i] = frame with JS semantics: replace in range, append at length,
pad with holes beyond.  A negative index stores a non-index object property,
invisible to the element list; that path is unreachable for candidates
produced by findAllItemLikeElements (a level-0 candidate always carries an
id, and then the id-change trimming raises a RangeError first). -/
def stackSet (s : Stack) (i : Int) (f : Frame) : Stack :=
  if i < 0 then s
  else if i.toNat < s.length then s.set i.toNat (some f)
  else s ++ List.replicate (i.toNat - s.length) none ++ [some f]

/-- The write stack[i]?.listItemElements.push(li): in-place mutation of the frame;
the optional chaining makes a missing frame a no-op. -/
def stackPushItem (s : Stack) (i : Int) (li : Nat) : Stack :=
  match stackGet s i with
  | some f => s.set i.toNat (some { f with listItemElements := f.listItemElements ++ [li] })
  | none => s

/-- The encounteredLists record (normalizer.ts:56).  A value of none models
the JavaScript NaN that results from incrementing a missing key; NaN is
falsy in every guard and absorbed by further increments. -/
abbrev Counters := List (String × Option Int)

def countersSet : Counters → String → Option Int → Counters
  | [], k, v => [(k, v)]
  | (k', v') :: tl, k, v =>
    if k' == k then (k, v) :: tl else (k', v') :: countersSet tl k v

/-- Truthiness of encounteredLists[key]: present, not NaN, nonzero. -/
def counterTruthy (cs : Counters) (k : String) : Bool :=
  match cs.lookup k with
  | some (some n) => n ≠ 0
  | _ => false

/-- encounteredLists[originalListId]++ (normalizer.ts:139): undefined++ and
NaN++ both give NaN. -/
def bumpCounter (cs : Counters) (k : String) : Counters :=
  match cs.lookup k with
  | some (some n) => countersSet cs k (some (n + 1))
  | _ => countersSet cs k none

/-- The combined key originalListId (normalizer.ts:70); interpolating an
undefined id prints "undefined". -/
def originalListIdKey (id : Option String) (indent : Nat) : String :=
  id.getD "undefined" ++ ":" ++ toString indent

/-- Lines 87-94 of transformListItemLikeLElementsIntoLists: when a depth-0
ordered list with a known id has a truthy counter, the descriptor's start
index is overwritten with the counter value (whether or not the style sheet
set an explicit start). -/
def resolveStartIndex (indent : Int) (listStyle : ListStyleDescriptor)
    (candId : Option String) (counters : Counters) (key : String) : ListStyleDescriptor :=
  if indent == 0 && listStyle.type == "ol" && candId.isSome && counterTruthy counters key then
    { listStyle with startIndex := ((counters.lookup key).join) }
  else listStyle

/-- Line 125: encounteredLists[originalListId] = listStyle.startIndex || 1
(a null, NaN or zero start index falls back to 1). -/
def initCounterValue (startIndex : Option Int) : Int :=
  match startIndex with
  | some n => if n ≠ 0 then n else 1
  | none => 1

def Doc.setStyleStr (d : Doc) (i : Nat) (s : String) : Doc :=
  d.mapNodeAt i (fun n => match n with
    | .element tag _ classes attrs ch => .element tag s classes attrs ch
    | t => t)

def Doc.pushAttr (d : Doc) (i : Nat) (k v : String) : Doc :=
  d.mapNodeAt i (fun n => match n with
    | .element tag style classes attrs ch => .element tag style classes (attrs ++ [(k, v)]) ch
    | t => t)

def Doc.pushClass (d : Doc) (i : Nat) (c : String) : Doc :=
  d.mapNodeAt i (fun n => match n with
    | .element tag style classes attrs ch => .element tag style (classes ++ [c]) attrs ch
    | t => t)

/-- createNewEmptyList (normalizer.ts:485); its hasMultiLevelListPlugin flag
is hard-coded to false at the only call site (normalizer.ts:96). -/
def createNewEmptyList (d : Doc) (listStyle : ListStyleDescriptor)
    (hasMultiLevelListPlugin : Bool) : Doc × Nat :=
  let (d, list) := d.createElement listStyle.type
  let d := match listStyle.style with
    | some s => d.setStyleStr list ("list-style-type: " ++ s ++ ";")
    | none => d
  let d := match listStyle.startIndex with
    | some n => if n > 1 then d.pushAttr list "start" (toString n) else d
    | none => d
  let d := if listStyle.isLegalStyleList && hasMultiLevelListPlugin then
      d.pushClass list "legal-list"
    else d
  (d, list)

/-- removeMsoListIgnoreSpans (normalizer.ts:508): remove every descendant
span whose style attribute contains the literal "mso-list:Ignore". -/
def removeMsoListIgnoreSpans (d : Doc) (parentElement : Nat) : Doc :=
  let spans := (d.descendants parentElement).filter (fun i =>
    (d.getNode i).elim false DomNode.isElem && jsLower ((d.tagOf i).getD "") == "span")
  spans.foldl (fun d span =>
    if csContains "mso-list:Ignore".toList (d.styleOf span).toList then
      match d.parentOf span with
      | some p => d.removeChild p span
      | none => d
    else d) d

structure TState where
  doc : Doc
  stack : Stack
  counters : Counters
deriving Repr, DecidableEq

/-- Lines 98-114 of the main loop: insert the freshly created OL/UL, either
as a sibling of the candidate (before it, or appended when the candidate is
the last element child) or under the last LI one level up; the optional
chaining skips the insertion when that frame or LI is missing. -/
def insertNewList (d : Doc) (stack : Stack) (indent : Int) (element listElement : Nat) :
    Except String Doc :=
  if stack.length == 0 then
    match d.parentOf element with
    | none => .error "TypeError: Cannot read properties of null (reading children)"
    | some parent =>
      let children := d.elemChildrenOf parent
      let index : Int := (match children.findIdx? (· == element) with
        | some k => (k : Int)
        | none => -1) + 1
      if index == (children.length : Int) then
        .ok (d.appendChild parent listElement)
      else
        .ok (d.insertBefore parent listElement element)
  else
    match stackGet stack (indent - 1) with
    | some f =>
      match f.listItemElements.getLast? with
      | some li => .ok (d.appendChild li listElement)
      | none => .ok d
    | none => .ok d

/-- Lines 130-147 of the main loop: reuse or create the LI, append it to the
current depth's list (optional chaining skips a missing frame), record it in
the frame, bump the depth-0 counter, move the block into the LI, and strip
mso-list:Ignore marker spans. -/
def appendListItem (d : Doc) (stack : Stack) (counters : Counters)
    (cand : ListLikeElement) (indent : Int) (key : String) : TState :=
  let (d, listItem) :=
    if jsLower ((d.tagOf cand.element).getD "") == "li" then (d, cand.element)
    else d.createElement "li"
  let d := match stackGet stack indent with
    | some f => d.appendChild f.listElement listItem
    | none => d
  let stack := stackPushItem stack indent listItem
  let counters := if indent == 0 && cand.id.isSome then bumpCounter counters key else counters
  let d := if cand.element ≠ listItem then d.appendChild listItem cand.element else d
  let d := removeMsoListIgnoreSpans d cand.element
  { doc := d, stack := stack, counters := counters }

/-- The normalized depth of line 73: min(indentLevel - 1, stack length). -/
def normalizedDepth (itemIndent : Int) (stackLen : Nat) : Int :=
  min (itemIndent - 1) (stackLen : Int)

/-- One iteration of the reconstruction main loop
(transformListItemLikeLElementsIntoLists, normalizer.ts:63-148). -/
def processItem (stylesString : String) (st : TState) (cand : ListLikeElement) :
    Except String TState := do
  match cand.indent with
  | none => return st
  | some itemIndent =>
    -- Reset the current stack if the previous used list does not continue (line 66).
    let cont ← isListContinuation st.doc cand.element
    let stack0 := if cont then st.stack else []
    let key := originalListIdKey cand.id itemIndent
    -- Normalized list item indentation (line 73).
    let indent : Int := normalizedDepth (itemIndent : Int) stack0.length
    -- Trimming of the list stack on list ID change (lines 76-78).
    let stack1 ←
      if indent < (stack0.length : Int) &&
         ((stackGet stack0 indent).bind (fun f => f.id)) != cand.id then
        setStackLength stack0 indent
      else pure stack0
    -- Trimming of the list stack on lower indent list encountered (lines 81-82).
    if indent < (stack1.length : Int) - 1 then
      let stack2 ← setStackLength stack1 (indent + 1)
      return appendListItem st.doc stack2 st.counters cand indent key
    else
      let listStyle ← detectListStyle st.doc cand stylesString
      -- Create a new OL/UL if required (line 86).
      if indent > (stack1.length : Int) - 1 ||
         ((stackGet stack1 indent).map (fun f => jsLower ((st.doc.tagOf f.listElement).getD "")))
           != some listStyle.type then
        let listStyle := resolveStartIndex indent listStyle cand.id st.counters key
        let (d1, listElement) := createNewEmptyList st.doc listStyle false
        let d2 ← insertNewList d1 stack1 indent cand.element listElement
        -- Update the list stack for other items to reference (line 117).
        let stack2 := stackSet stack1 indent
          { id := cand.id, order := cand.order, indent := cand.indent,
            element := cand.element, listElement := listElement,
            listItemElements := [], depth := indent.toNat }
        -- Prepare list counter for start index (lines 123-126).
        let counters1 :=
          if indent == 0 && cand.id.isSome then
            countersSet st.counters key (some (initCounterValue listStyle.startIndex))
          else st.counters
        return appendListItem d2 stack2 counters1 cand indent key
      else
        return appendListItem st.doc stack1 st.counters cand indent key

/-- MSWordNormalizer.transformListItemLikeLElementsIntoLists (normalizer.ts:50). -/
def transformListItemLikeLElementsIntoLists (d : Doc) (stylesString : String) :
    Except String Doc := do
  let itemLikeElements := findAllItemLikeElements d
  if itemLikeElements.isEmpty then return d
  else
    let final ← itemLikeElements.foldlM (processItem stylesString)
      { doc := d, stack := [], counters := [] }
    return final.doc

/-! ## Attribute cleanup -/

/-- removeMSOStyles (normalizer.ts:304): split the inline style on
semicolons, trim, drop every declaration whose key (the part before the
first colon) matches /\bmso/gi, and rejoin with semicolons. -/
def removeMSOStyles (style : String) : String :=
  let styleProperties := (splitChar ';' style.toList).map jsTrim
  let filteredProperties := styleProperties.filter (fun property =>
    let key := (splitChar ':' property).headI
    !hasBMso (jsLower ⟨key⟩))
  ⟨joinChar ';' filteredProperties⟩

/-- The class-removal loop of removeMSAttributes (normalizer.ts:159-163):
for..of iteration over the live classList while removing matching tokens.
Removing the token at the cursor shifts the following token into its slot,
and the iterator then skips it; classList.remove drops every occurrence of
the token. -/
def cleanClassesFromAux : Nat → Nat → List String → List String
  | 0, _, xs => xs
  | fuel + 1, k, xs =>
    if h : k < xs.length then
      if hasBMso (xs.get ⟨k, h⟩) then
        cleanClassesFromAux fuel (k + 1) (xs.filter (· ≠ xs.get ⟨k, h⟩))
      else cleanClassesFromAux fuel (k + 1) xs
    else xs

/-- The loop entered at cursor k; the fuel xs.length - k bounds the number of
iterations (the cursor grows by one per step and the length never grows), so
the fuel-free semantics is preserved. -/
def cleanClassesFrom (k : Nat) (xs : List String) : List String :=
  cleanClassesFromAux (xs.length - k) k xs

/-- isElementEmpty (normalizer.ts:300): no character data in the subtree and
no element child (exactly when both textContent and trimmed innerHTML are
empty). -/
def isElementEmpty (d : Doc) (i : Nat) : Bool :=
  d.textContent i == "" && (d.elemChildrenOf i).isEmpty

/-- The unwrap test of removeMSAttributes (normalizer.ts:171), with the
source's operator precedence: W:SDT unconditionally, W:SDTPR and O:P only
when empty. -/
def unwrapCondition (d : Doc) (i : Nat) : Bool :=
  let tag := (d.tagOf i).getD ""
  tag == "W:SDT" || (tag == "W:SDTPR" && isElementEmpty d i)
    || (tag == "O:P" && isElementEmpty d i)

/-- The per-element body of the first removeMSAttributes loop
(normalizer.ts:157-168): remove matching classes, then rewrite the style. -/
def cleanupElement (d : Doc) (i : Nat) : Doc :=
  let d := d.mapNodeAt i (fun n => match n with
    | .element tag style classes attrs ch =>
        .element tag style (cleanClassesFrom 0 classes) attrs ch
    | t => t)
  d.mapNodeAt i (fun n => match n with
    | .element tag style classes attrs ch =>
        .element tag (removeMSOStyles style) classes attrs ch
    | t => t)

/-- MSWordNormalizer.removeMSAttributes (normalizer.ts:152). -/
def removeMSAttributes (d : Doc) : Except String Doc :=
  let items := d.allElements
  let step := fun (acc : Doc × List Nat) (i : Nat) =>
    let d' := cleanupElement acc.1 i
    if unwrapCondition d' i then (d', acc.2 ++ [i]) else (d', acc.2)
  let cleaned := items.foldl step (d, ([] : List Nat))
  cleaned.2.foldlM (fun dd i =>
    match dd.parentOf i with
    | some p => pure (dd.removeChild p i)
    | none => .error "TypeError: Cannot read properties of null (reading removeChild)")
    cleaned.1

/-- MSWordNormalizer.normalize (normalizer.ts:11), stated at the level of the
parsed document: the DOMParser parse and the innerHTML serialization are the
external tree abstraction, and stylesString is the style-sheet text the
preprocessor extracted. -/
def MSWordNormalizer.normalize (d : Doc) (stylesString : String) : Except String Doc := do
  let d1 ← transformListItemLikeLElementsIntoLists d stylesString
  removeMSAttributes d1

/-! ## Whitespace normalization -/

/-- The expression Array(n + 1).join('  ').substring(0, n): the length-n alternating
non-breaking-space/space run starting with a non-breaking space. -/
def jsNbspAlternating (n : Nat) : List Char :=
  (List.replicate n ['\u00a0', ' ']).flatten.take n

/-- The replacement callback of normalizeSafariSpaceSpans (normalizer.ts:248):
a single whitespace character becomes one regular space, a longer run becomes
the alternating NBSP/space run of the same length. -/
def safariSpaceReplacement (spaces : List Char) : List Char :=
  if spaces.length == 1 then [' '] else jsNbspAlternating spaces.length

/-- One attempted match of the regex
<span(?: class="Apple-converted-space"|)>(\s+)<\/span> at the head of the
string: on success, the replacement and the number of characters consumed. -/
def safariMatchBody (rest : List Char) (k : Nat) : Option (List Char × Nat) :=
  let r := rest.drop k
  let spaces := r.takeWhile jsWhitespace
  if spaces == [] then none
  else if csMatchHead "</span>".toList (r.drop spaces.length) then
    some (safariSpaceReplacement spaces, k + spaces.length + 7)
  else none

def safariMatchAt (rest : List Char) : Option (List Char × Nat) :=
  if csMatchHead "<span>".toList rest then safariMatchBody rest 6
  else if csMatchHead "<span class=\"Apple-converted-space\">".toList rest then
    safariMatchBody rest 36
  else none

/-- normalizeSafariSpaceSpans (normalizer.ts:247): the global regex replace,
scanning left to right, replacing non-overlapping matches and resuming after
each replaced segment.  A successful match consumes at least one character
and a failed attempt advances one character, so a fuel equal to the string
length (supplied by the wrapper) never runs out. -/
def normalizeSafariAux : Nat → List Char → List Char
  | 0, cs => cs
  | _ + 1, [] => []
  | fuel + 1, c :: cs =>
    match safariMatchAt (c :: cs) with
    | some (rep, n) => rep ++ normalizeSafariAux fuel ((c :: cs).drop n)
    | none => c :: normalizeSafariAux fuel cs

def normalizeSafariSpaceSpans (s : String) : String :=
  ⟨normalizeSafariAux s.toList.length s.toList⟩

/-- normalizeSpacerunSpans (normalizer.ts:253): every span whose style
attribute contains "spacerun" gets its innerText replaced by the alternating
NBSP/space run of the same length (innerText is modelled as textContent, and
setting it replaces the children with a single text node, or none when the
replacement is empty). -/
def normalizeSpacerunSpans (d : Doc) : Doc :=
  let spans := d.allElements.filter (fun i =>
    jsLower ((d.tagOf i).getD "") == "span" &&
      csContains "spacerun".toList (d.styleOf i).toList)
  spans.foldl (fun d el =>
    let innerTextLength := (d.textContent el).length
    let replacement := jsNbspAlternating innerTextLength
    if replacement == [] then d.setChildrenAt el []
    else
      let d' : Doc := { d with nodes := d.nodes ++ [.text ⟨replacement⟩] }
      d'.setChildrenAt el [d.nodes.length]) d

/-! ## Concrete documents used by the claim theorems -/

/-- A body whose list-item candidate is preceded by a bare text node:
the HTML fragment  x<p style="mso-list:l1 lfo1 level1">Item</p>. -/
def exDocTextSibling : Doc :=
  { nodes := [
      .element "BODY" "" [] [] [1, 2],
      .text "x",
      .element "P" "mso-list:l1 lfo1 level1" [] [] [3],
      .text "Item"],
    root := 0 }

/-- Another body with a text node before the candidate (used for the
round-trip claim):  intro<div style="mso-list:l7 lfo2 level1">Entry</div>. -/
def exDocTextSibling2 : Doc :=
  { nodes := [
      .element "BODY" "" [] [] [1, 2],
      .text "intro",
      .element "DIV" "mso-list:l7 lfo2 level1" [] [] [3],
      .text "Entry"],
    root := 0 }

/-- Style sheet setting an explicit start-at of 5 for list l1 at level 1. -/
def stylesStartAt5 : String :=
  "@list l1:level1 \x7bmso-level-number-format:arabic;mso-level-start-at:5;\x7d"

/-- Two candidates of list l1 level 1, an interrupting plain paragraph, and a
reopened candidate of the same list. -/
def exDocResume : Doc :=
  { nodes := [
      .element "BODY" "" [] [] [1, 2, 3, 4],
      .element "P" "mso-list:l1 lfo1 level1" [] [] [5],
      .element "P" "mso-list:l1 lfo1 level1" [] [] [6],
      .element "P" "" [] [] [7],
      .element "P" "mso-list:l1 lfo1 level1" [] [] [8],
      .text "One", .text "Two", .text "X", .text "Three"],
    root := 0 }

/-- As exDocResume but with three items before the interruption. -/
def exDocResume3 : Doc :=
  { nodes := [
      .element "BODY" "" [] [] [1, 2, 3, 4, 5],
      .element "P" "mso-list:l1 lfo1 level1" [] [] [6],
      .element "P" "mso-list:l1 lfo1 level1" [] [] [7],
      .element "P" "mso-list:l1 lfo1 level1" [] [] [8],
      .element "P" "" [] [] [9],
      .element "P" "mso-list:l1 lfo1 level1" [] [] [10],
      .text "One", .text "Two", .text "Three", .text "X", .text "Four"],
    root := 0 }

/-- The start attributes of the ordered-list containers, in document order. -/
def olStartAttrs (d : Doc) : List (Option String) :=
  d.allElements.filterMap (fun i =>
    if d.tagOf i == some "OL" then some (d.getAttr i "start") else none)

/-- A candidate paragraph whose first child is a bare text node, followed by
a marker span holding the code-point-183 middle dot. -/
def exDocBareText : Doc :=
  { nodes := [
      .element "BODY" "" [] [] [1],
      .element "P" "mso-list:l2 lfo1 level1" [] [] [2, 3],
      .text "Item text first",
      .element "SPAN" "" [] [] [4],
      .text "·"],
    root := 0 }

/-- A candidate paragraph with a proper marker span (middle dot, code point
183) as its first child. -/
def exDocBulletMarker : Doc :=
  { nodes := [
      .element "BODY" "" [] [] [1],
      .element "P" "mso-list:l2 lfo1 level1" [] [] [2, 3],
      .element "SPAN" "mso-list:Ignore" [] [] [4],
      .text "Item text",
      .text "·"],
    root := 0 }

/-- Style sheet declaring bullet number format for list l2 level 1. -/
def stylesBullet : String :=
  "@list l2:level1 \x7bmso-level-number-format:bullet;\x7d"

def candBullet : ListLikeElement :=
  { id := some "2", order := some "1", indent := some 1, element := 1 }

/-- A spacerun span holding a single space. -/
def exDocSpacerun : Doc :=
  { nodes := [
      .element "BODY" "" [] [] [1],
      .element "SPAN" "mso-spacerun:yes" [] [] [2],
      .text " "],
    root := 0 }

/-- A spacerun span holding an arbitrary text. -/
def spacerunDoc (t : String) : Doc :=
  { nodes := [
      .element "BODY" "" [] [] [1],
      .element "SPAN" "mso-spacerun:yes" [] [] [2],
      .text t],
    root := 0 }

/-- A paragraph that already carries the class legal-list in the input. -/
def exDocLegalClass : Doc :=
  { nodes := [
      .element "BODY" "" [] [] [1],
      .element "P" "" ["legal-list"] [] [2],
      .text "hello"],
    root := 0 }

/-- The classes carried by a node. -/
def nodeClasses : DomNode → List String
  | .element _ _ classes _ _ => classes
  | .text _ => []

/-- The style string carried by a node. -/
def nodeStyle : DomNode → String
  | .element _ style _ _ _ => style
  | .text _ => ""

/-- No node of the arena (attached or detached) carries the class c. -/
def NoClassAnywhere (d : Doc) (c : String) : Prop :=
  ∀ n ∈ d.nodes, c ∉ nodeClasses n

/-- The key of one inline-style declaration as removeMSOStyles reads it:
the part before the first colon. -/
def styleDeclKey (property : List Char) : List Char :=
  (splitChar ':' property).headI

/-- The stack invariant: position i of the stack holds a frame (no holes)
that was pushed at normalized depth i. -/
def StackInv (s : Stack) : Prop :=
  ∀ i, i < s.length → ((s.get? i).join.map Frame.depth) = some i

/-- Does any reachable element of the document carry the class legal-list? -/
def hasLegalListClass (d : Doc) : Bool :=
  d.allElements.any (fun i => (d.classesOf i).contains "legal-list")

/-- The inline styles of the unordered-list containers, in document order. -/
def ulListStyles (d : Doc) : List String :=
  d.allElements.filterMap (fun i =>
    if d.tagOf i == some "UL" then some (d.styleOf i) else none)

/-- The document normalize produces from exDocBulletMarker (the marker span
is removed from the paragraph and stays detached in the arena). -/
def bulletOutDoc : Doc :=
  { nodes := [
      .element "BODY" "" [] [] [5],
      .element "P" "" [] [] [3],
      .element "SPAN" "mso-list:Ignore" [] [] [4],
      .text "Item text",
      .text "·",
      .element "UL" "list-style-type: disc;" [] [] [6],
      .element "LI" "" [] [] [1]],
    root := 0 }

/-- Two adjacent classes are never both word-boundary-mso matches. -/
def BMsoApart (a b : String) : Prop := ¬(hasBMso a = true ∧ hasBMso b = true)

instance : DecidableRel BMsoApart := fun a b => by
  unfold BMsoApart
  infer_instance

/-- The trimmed style declarations that survive removeMSOStyles: those whose
key (the part before the first colon) carries no word-boundary mso. -/
def surviveMsoFilter (s : String) : List (List Char) :=
  ((splitChar ';' s.toList).map jsTrim).filter
    (fun property => !hasBMso (jsLower ⟨(splitChar ':' property).headI⟩))

/-! ## Claim theorems -/

/-- C1: the claim says normalize never throws, in particular that the
continuation check tolerates a text-node previous sibling.  The code reads
tagName of the text node (undefined) and calls toLowerCase on it: normalize
throws a TypeError on the fragment  x<p style="mso-list:l1 lfo1 level1">Item</p>. -/
theorem c1_normalize_throws_on_text_sibling :
    MSWordNormalizer.normalize exDocTextSibling "" =
      .error "TypeError: Cannot read properties of undefined (reading toLowerCase)" ∧
    isListContinuation exDocTextSibling 2 =
      .error "TypeError: Cannot read properties of undefined (reading toLowerCase)" := by
  exact ⟨by rfl, by rfl⟩

set_option maxRecDepth 200000 in
/-- C2 counterexample: with an explicit start-at of 5 for list l1 level 1,
two collected items, an interruption and a reopening, the reopened container
receives start 7 (the running counter), not the explicit 5 the claim
requires. -/
theorem c2_counterexample :
    (MSWordNormalizer.normalize exDocResume stylesStartAt5).map olStartAttrs =
      .ok [some "5", some "7"] ∧ (some "7" : Option String) ≠ some "5" := by
  exact ⟨by rfl, by simp⟩

/-- C4: the claim says normalize(normalize(x)) never throws for every x.
The first application already throws on a candidate preceded by a bare text
node, so the composition throws there too. -/
theorem c4_roundtrip_throws :
    (MSWordNormalizer.normalize exDocTextSibling2 "").bind
      (fun d => MSWordNormalizer.normalize d "") =
    .error "TypeError: Cannot read properties of undefined (reading toLowerCase)" := by
  rfl

/-- C6: the claim (and the source's own comment) says sniffing returns
unknown when the candidate's first child is a bare text node.  Since
element.children skips text nodes, the code inspects the later marker span
and returns disc for the code-point-183 dot. -/
theorem c6_sniffing_uses_later_child :
    findBulletedListStyle exDocBareText 1 = .ok (some "disc") ∧
    (some "disc" : Option String) ≠ none := by
  exact ⟨by rfl, by simp⟩

/-- C8 counterexample: the class xmso contains "mso" as a substring but has
no word boundary before it, so it survives cleanup; and of two adjacent
matching classes the live-iteration skip keeps the second one. -/
theorem c8_counterexample :
    cleanClassesFrom 0 ["xmso"] = ["xmso"] ∧
    csContains "mso".toList "xmso".toList = true ∧
    cleanClassesFrom 0 ["msoa", "msob"] = ["msob"] := by
  exact ⟨by decide, by decide, by decide⟩

/-- C9 counterexample: a spacerun span holding a single space is rewritten
to a single non-breaking space, not the regular space the claim requires. -/
theorem c9_counterexample :
    (normalizeSpacerunSpans exDocSpacerun).textContent 1 = " " ∧
    (" " : String) ≠ " " := by
  exact ⟨by rfl, by decide⟩

/-- C10 counterexample: an input that already carries the class legal-list
keeps it, so the output of normalize can contain that class. -/
theorem c10_counterexample :
    (MSWordNormalizer.normalize exDocLegalClass "").map hasLegalListClass = .ok true := by
  rfl

/-! ## Helper lemmas about document operations -/

theorem Doc.getNode_mapNodeAt_self (d : Doc) (i : Nat) (f : DomNode → DomNode) :
    (d.mapNodeAt i f).getNode i = (d.getNode i).map f := by
  unfold Doc.mapNodeAt
  cases h : d.getNode i with
  | none => simp [h]
  | some n =>
    simp only [h, Option.map_some']
    unfold Doc.getNode Doc.setNode at *
    simp only [List.get?_set_eq, h, Option.map_eq_map, Option.map_some']

theorem Doc.getNode_append_len (d : Doc) (x : DomNode) :
    (Doc.mk (d.nodes ++ [x]) d.root).getNode d.nodes.length = some x := by
  unfold Doc.getNode
  exact List.get?_concat_length d.nodes x

theorem Doc.createElement_node (d : Doc) (t : String) :
    (d.createElement t).1.getNode (d.createElement t).2 =
      some (.element (jsUpper t) "" [] [] []) := by
  unfold Doc.createElement
  exact Doc.getNode_append_len d _

/-- The node created by createNewEmptyList: uppercased tag, the
list-style-type style when one is resolved, the start attribute when the
resolved start index exceeds 1, the legal-list class only when both the
legal flag and the plugin flag hold, no children. -/
theorem createNewEmptyList_node (d : Doc) (ls : ListStyleDescriptor) (flag : Bool) :
    (createNewEmptyList d ls flag).1.getNode (createNewEmptyList d ls flag).2 =
      some (.element (jsUpper ls.type)
        (match ls.style with | some s => "list-style-type: " ++ s ++ ";" | none => "")
        (if ls.isLegalStyleList && flag then ["legal-list"] else [])
        (match ls.startIndex with
         | some n => if n > 1 then [("start", toString n)] else []
         | none => [])
        []) := by
  unfold createNewEmptyList
  simp only [Doc.pushClass, Doc.pushAttr, Doc.setStyleStr]
  repeat' split
  all_goals simp_all [Doc.getNode_mapNodeAt_self, Doc.createElement_node]

/-- The start attribute of a freshly created list container. -/
theorem createNewEmptyList_start_attr (d : Doc) (ls : ListStyleDescriptor) (flag : Bool) :
    (createNewEmptyList d ls flag).1.getAttr (createNewEmptyList d ls flag).2 "start" =
      (match ls.startIndex with
       | some n => if n > 1 then some (toString n) else none
       | none => none) := by
  unfold Doc.getAttr Doc.attrsOf
  rw [createNewEmptyList_node]
  cases hn : ls.startIndex with
  | none => rfl
  | some n =>
    by_cases hgt : n > 1
    · simp [hgt, List.lookup]
    · simp [hgt]

/-! ## Helper lemmas about the counter record -/

theorem countersSet_lookup_self (cs : Counters) (k : String) (v : Option Int) :
    (countersSet cs k v).lookup k = some v := by
  induction cs with
  | nil => simp [countersSet, List.lookup]
  | cons hd tl ih =>
    obtain ⟨k', v'⟩ := hd
    by_cases hk : k' = k
    · subst hk
      simp [countersSet, List.lookup]
    · have hne : (k == k') = false := by simpa using Ne.symm hk
      have hne' : (k' == k) = false := by simpa using hk
      simp only [countersSet, hne', Bool.false_eq_true, if_false, List.lookup, hne]
      exact ih

theorem bumpCounter_lookup (cs : Counters) (k : String) (n : Int)
    (h : cs.lookup k = some (some n)) :
    (bumpCounter cs k).lookup k = some (some (n + 1)) := by
  unfold bumpCounter
  rw [h]
  exact countersSet_lookup_self cs k (some (n + 1))

/-- C2 (amended): whenever a nonzero counter exists for the combined key of
a depth-0 ordered-list candidate with a known id, the resolved descriptor's
start index is the counter's value — also when the style sheet set an
explicit start — and the container created from it carries that value as
its start attribute (when it exceeds 1). -/
theorem c2_amended_counter_wins (ls : ListStyleDescriptor) (cid : String)
    (counters : Counters) (key : String) (c : Int) (d : Doc)
    (hc : counters.lookup key = some (some c)) (hc0 : c ≠ 0) (hty : ls.type = "ol") :
    (resolveStartIndex 0 ls (some cid) counters key).startIndex = some c ∧
    (1 < c →
      (createNewEmptyList d (resolveStartIndex 0 ls (some cid) counters key) false).1.getAttr
        (createNewEmptyList d (resolveStartIndex 0 ls (some cid) counters key) false).2
        "start" = some (toString c)) := by
  have hres : resolveStartIndex 0 ls (some cid) counters key =
      { ls with startIndex := some c } := by
    unfold resolveStartIndex counterTruthy
    simp [hc, hty, hc0]
  constructor
  · rw [hres]
  · intro hgt
    rw [hres, createNewEmptyList_start_attr]
    simp [hgt]

/-- C2 witness: the amended theorem applied to a concrete descriptor with
explicit start 5 and a counter standing at 7. -/
theorem c2_amended_counter_wins_witness :
    ([("1:1", (some 7 : Option Int))].lookup "1:1" = some (some 7)) ∧
    (resolveStartIndex 0
        { type := "ol", startIndex := some 5, style := none, isLegalStyleList := false }
        (some "1") [("1:1", some 7)] "1:1").startIndex = some 7 := by
  refine ⟨by decide, ?_⟩
  exact (c2_amended_counter_wins _ "1" _ "1:1" 7 exDocResume (by decide) (by decide) rfl).1

set_option maxRecDepth 400000 in
/-- C3: a start-at of 5 on the first occurrence of a depth-0 ordered list
yields a container with start attribute 5, and the occurrence reopened after
k collected items resumes at 5 + k (evaluated end to end for k = 2 and
k = 3); moreover a resolved start index of 5 always becomes the attribute 5
on creation, and the counter increments by exactly one per counted item. -/
theorem c3_resume_adds_item_count :
    (MSWordNormalizer.normalize exDocResume stylesStartAt5).map olStartAttrs =
      .ok [some "5", some "7"] ∧
    (MSWordNormalizer.normalize exDocResume3 stylesStartAt5).map olStartAttrs =
      .ok [some "5", some "8"] ∧
    (∀ (d : Doc) (ls : ListStyleDescriptor), ls.startIndex = some 5 →
      (createNewEmptyList d ls false).1.getAttr (createNewEmptyList d ls false).2
        "start" = some "5") ∧
    (∀ (cs : Counters) (k : String) (n : Int), cs.lookup k = some (some n) →
      (bumpCounter cs k).lookup k = some (some (n + 1))) := by
  refine ⟨by rfl, by rfl, ?_, ?_⟩
  · intro d ls hs
    rw [createNewEmptyList_start_attr, hs]
    rfl
  · exact bumpCounter_lookup

/-- C3 witness: the general conjuncts applied at concrete inputs. -/
theorem c3_resume_adds_item_count_witness :
    (({ type := "ol", startIndex := some 5, style := none,
        isLegalStyleList := false } : ListStyleDescriptor).startIndex = some 5) ∧
    (createNewEmptyList exDocResume
        { type := "ol", startIndex := some 5, style := none, isLegalStyleList := false }
        false).1.getAttr
      (createNewEmptyList exDocResume
        { type := "ol", startIndex := some 5, style := none, isLegalStyleList := false }
        false).2 "start" = some "5" ∧
    (bumpCounter [("1:1", some 5)] "1:1").lookup "1:1" = some (some 6) := by
  refine ⟨rfl, ?_, ?_⟩
  · exact c3_resume_adds_item_count.2.2.1 exDocResume _ rfl
  · exact c3_resume_adds_item_count.2.2.2 [("1:1", some 5)] "1:1" 5 (by decide)

/-- C7: a bullet-resolving candidate's marker text determines the list style:
literal "o" gives circle, a first character with code point 183 gives disc,
the section sign gives square, anything else gives unknown (no style); and a
style rule with mso-level-number-format:bullet plus a code-point-183 marker
yields a UL whose style resolves to disc, end to end. -/
theorem c7_bullet_marker_mapping (d : Doc) (el m : Nat)
    (htag : jsLower ((d.tagOf el).getD "") ≠ "li")
    (hm : findListMarkerNode d el = some m) :
    (d.textContent m = "o" → findBulletedListStyle d el = .ok (some "circle")) ∧
    ((((d.textContent m).toList.get? 0).map Char.toNat) = some 183 →
      findBulletedListStyle d el = .ok (some "disc")) ∧
    (d.textContent m = "§" → findBulletedListStyle d el = .ok (some "square")) ∧
    (d.textContent m ≠ "o" → (((d.textContent m).toList.get? 0).map Char.toNat) ≠ some 183 →
      d.textContent m ≠ "§" → findBulletedListStyle d el = .ok none) ∧
    (detectListStyle exDocBulletMarker candBullet stylesBullet =
      .ok { type := "ul", startIndex := none, style := some "disc",
            isLegalStyleList := false }) ∧
    (MSWordNormalizer.normalize exDocBulletMarker stylesBullet).map ulListStyles =
      .ok ["list-style-type: disc;"] := by
  have hb : findBulletedListStyle d el = .ok (bulletFromMarker d el) := by
    unfold findBulletedListStyle
    simp [htag]
  have hbm : bulletFromMarker d el =
      (let listMarker := d.textContent m
       if listMarker == "o" then some "circle"
       else if ((listMarker.toList.get? 0).map Char.toNat) == some 183 then some "disc"
       else if listMarker == "§" then some "square"
       else none) := by
    unfold bulletFromMarker
    rw [hm]
  refine ⟨?_, ?_, ?_, ?_, by rfl, by rfl⟩
  · intro h
    have b1 : (d.textContent m == "o") = true := beq_iff_eq.mpr h
    rw [hb, hbm]
    simp only [b1, if_true]
  · intro h
    have hno : d.textContent m ≠ "o" := by
      intro he
      rw [he] at h
      simp at h
    have b1 : (d.textContent m == "o") = false := beq_eq_false_iff_ne.mpr hno
    have b2 : ((((d.textContent m).toList.get? 0).map Char.toNat) == some 183) = true :=
      beq_iff_eq.mpr h
    rw [hb, hbm]
    simp only [b1, b2, Bool.false_eq_true, if_false, if_true]
  · intro h
    have h183 : (((d.textContent m).toList.get? 0).map Char.toNat) ≠ some 183 := by
      rw [h]
      decide
    have b1 : (d.textContent m == "o") = false := by
      rw [h]
      decide
    have b2 : ((((d.textContent m).toList.get? 0).map Char.toNat) == some 183) = false :=
      beq_eq_false_iff_ne.mpr h183
    have b3 : (d.textContent m == "§") = true := beq_iff_eq.mpr h
    rw [hb, hbm]
    simp only [b1, b2, b3, Bool.false_eq_true, if_false, if_true]
  · intro h1 h2 h3
    have b1 : (d.textContent m == "o") = false := beq_eq_false_iff_ne.mpr h1
    have b2 : ((((d.textContent m).toList.get? 0).map Char.toNat) == some 183) = false :=
      beq_eq_false_iff_ne.mpr h2
    have b3 : (d.textContent m == "§") = false := beq_eq_false_iff_ne.mpr h3
    rw [hb, hbm]
    simp only [b1, b2, b3, Bool.false_eq_true, if_false]

/-- C7 witness: the mapping applied to the concrete code-point-183 marker. -/
theorem c7_bullet_marker_mapping_witness :
    findBulletedListStyle exDocBulletMarker 1 = .ok (some "disc") := by
  exact (c7_bullet_marker_mapping exDocBulletMarker 1 2 (by decide) (by rfl)).2.1 (by decide)

/-! ## Helper lemmas for the alternating space run -/

theorem flatten_replicate_pair_get (a b : Char) :
    ∀ (n i : Nat), i < 2 * n →
      ((List.replicate n [a, b]).flatten).get? i =
        some (if i % 2 = 0 then a else b)
  | 0, i, h => by omega
  | n + 1, 0, _ => by
    rw [List.replicate_succ, List.flatten_cons]
    rfl
  | n + 1, 1, _ => by
    rw [List.replicate_succ, List.flatten_cons]
    rfl
  | n + 1, i + 2, h => by
    have h' : i < 2 * n := by omega
    have hmod : (i + 2) % 2 = i % 2 := by omega
    rw [List.replicate_succ, List.flatten_cons]
    show (a :: b :: (List.replicate n [a, b]).flatten).get? (i + 2) = _
    rw [List.get?_cons_succ, List.get?_cons_succ, hmod]
    exact flatten_replicate_pair_get a b n i h'

theorem flatten_replicate_pair_length (a b : Char) (n : Nat) :
    ((List.replicate n [a, b]).flatten).length = 2 * n := by
  induction n with
  | zero => simp
  | succ n ih =>
    rw [List.replicate_succ, List.flatten_cons, List.length_append, ih]
    simp
    omega

theorem jsNbspAlternating_length (n : Nat) : (jsNbspAlternating n).length = n := by
  unfold jsNbspAlternating
  rw [List.length_take, flatten_replicate_pair_length]
  omega

theorem jsNbspAlternating_get (n i : Nat) (h : i < n) :
    (jsNbspAlternating n).get? i = some (if i % 2 = 0 then '\u00a0' else ' ') := by
  unfold jsNbspAlternating
  rw [List.get?_take h]
  exact flatten_replicate_pair_get '\u00a0' ' ' n i (by omega)

theorem jsNbspAlternating_eq_nil_iff (n : Nat) : (jsNbspAlternating n = []) ↔ n = 0 := by
  constructor
  · intro h
    have := jsNbspAlternating_length n
    rw [h] at this
    simpa using this.symm
  · intro h
    subst h
    rfl

/-- C9 (amended): a Safari preserved-space span with a single whitespace
character becomes one regular space and a longer run becomes the alternating
NBSP/space sequence of its length (starting with an NBSP, as the
characterization of jsNbspAlternating states); a spacerun span's content of
any length N becomes that same alternating sequence — so a spacerun span
holding one space becomes a single NBSP, not a regular space. -/
theorem c9_amended :
    (∀ w : List Char, w.length = 1 → safariSpaceReplacement w = [' ']) ∧
    (∀ w : List Char, 1 < w.length → safariSpaceReplacement w = jsNbspAlternating w.length) ∧
    (∀ n : Nat, (jsNbspAlternating n).length = n ∧
      ∀ i, i < n → (jsNbspAlternating n).get? i = some (if i % 2 = 0 then ' ' else ' ')) ∧
    normalizeSafariSpaceSpans "<span> </span>" = " " ∧
    normalizeSafariSpaceSpans "<span>   </span>" = "   " ∧
    (∀ t : String, (normalizeSpacerunSpans (spacerunDoc t)).textContent 1 =
      ⟨jsNbspAlternating t.length⟩) := by
  refine ⟨?_, ?_, ?_, by rfl, by rfl, ?_⟩
  · intro w hw
    unfold safariSpaceReplacement
    simp [hw]
  · intro w hw
    unfold safariSpaceReplacement
    have hb : (w.length == 1) = false := by
      simp only [beq_eq_false_iff_ne, ne_eq]
      omega
    simp [hb]
  · intro n
    exact ⟨jsNbspAlternating_length n, fun i hi => jsNbspAlternating_get n i hi⟩
  · intro t
    have hstep : normalizeSpacerunSpans (spacerunDoc t) =
        (if jsNbspAlternating t.length == [] then (spacerunDoc t).setChildrenAt 1 []
         else Doc.setChildrenAt
           { spacerunDoc t with
             nodes := (spacerunDoc t).nodes ++ [.text ⟨jsNbspAlternating t.length⟩] }
           1 [3]) := rfl
    rw [hstep]
    by_cases h0 : jsNbspAlternating t.length = []
    · have hb : (jsNbspAlternating t.length == []) = true := beq_iff_eq.mpr h0
      simp only [hb, if_true]
      rw [h0]
      rfl
    · have hb : (jsNbspAlternating t.length == []) = false := beq_eq_false_iff_ne.mpr h0
      simp only [hb, Bool.false_eq_true, if_false]
      rfl

/-- C9 witness: the amended facts applied at concrete runs. -/
theorem c9_amended_witness :
    safariSpaceReplacement [' '] = [' '] ∧
    safariSpaceReplacement [' ', '\t', ' '] = jsNbspAlternating 3 ∧
    (normalizeSpacerunSpans (spacerunDoc "ab")).textContent 1 = ⟨jsNbspAlternating 2⟩ := by
  refine ⟨c9_amended.1 [' '] rfl, c9_amended.2.1 [' ', '\t', ' '] (by decide), ?_⟩
  exact c9_amended.2.2.2.2.2 "ab"

/-! ## Class-invariant preservation (no node ever gains a class) -/

theorem noClass_mapNodeAt {d : Doc} {i : Nat} {f : DomNode → DomNode} {c : String}
    (hf : ∀ m, c ∉ nodeClasses m → c ∉ nodeClasses (f m))
    (h : NoClassAnywhere d c) : NoClassAnywhere (d.mapNodeAt i f) c := by
  intro n hn
  unfold Doc.mapNodeAt at hn
  cases hg : d.getNode i with
  | none => rw [hg] at hn; exact h n hn
  | some m =>
    rw [hg] at hn
    unfold Doc.setNode at hn
    rcases List.mem_or_eq_of_mem_set hn with hmem | heq
    · exact h n hmem
    · subst heq
      exact hf m (h m (List.get?_mem hg))

theorem noClass_detach {d : Doc} {i : Nat} {c : String}
    (h : NoClassAnywhere d c) : NoClassAnywhere (d.detach i) c := by
  intro n hn
  unfold Doc.detach at hn
  simp only [List.mem_map] at hn
  obtain ⟨m, hm, rfl⟩ := hn
  have := h m hm
  cases m <;> simpa [nodeClasses] using this

theorem noClass_setChildrenAt {d : Doc} {i : Nat} {ch : List Nat} {c : String}
    (h : NoClassAnywhere d c) : NoClassAnywhere (d.setChildrenAt i ch) c := by
  unfold Doc.setChildrenAt
  refine noClass_mapNodeAt (fun m hm => ?_) h
  cases m <;> simpa [nodeClasses] using hm

theorem noClass_appendChild {d : Doc} {p ch : Nat} {c : String}
    (h : NoClassAnywhere d c) : NoClassAnywhere (d.appendChild p ch) c :=
  noClass_setChildrenAt (noClass_detach h)

theorem noClass_insertBefore {d : Doc} {p x r : Nat} {c : String}
    (h : NoClassAnywhere d c) : NoClassAnywhere (d.insertBefore p x r) c :=
  noClass_setChildrenAt (noClass_detach h)

theorem noClass_removeChild {d : Doc} {p ch : Nat} {c : String}
    (h : NoClassAnywhere d c) : NoClassAnywhere (d.removeChild p ch) c :=
  noClass_setChildrenAt h

theorem noClass_createElement {d : Doc} {t : String} {c : String}
    (h : NoClassAnywhere d c) : NoClassAnywhere (d.createElement t).1 c := by
  intro n hn
  unfold Doc.createElement at hn
  simp only [List.mem_append, List.mem_singleton] at hn
  rcases hn with hmem | rfl
  · exact h n hmem
  · simp [nodeClasses]

theorem noClass_setStyleStr {d : Doc} {i : Nat} {s : String} {c : String}
    (h : NoClassAnywhere d c) : NoClassAnywhere (d.setStyleStr i s) c := by
  unfold Doc.setStyleStr
  refine noClass_mapNodeAt (fun m hm => ?_) h
  cases m <;> simpa [nodeClasses] using hm

theorem noClass_pushAttr {d : Doc} {i : Nat} {k v : String} {c : String}
    (h : NoClassAnywhere d c) : NoClassAnywhere (d.pushAttr i k v) c := by
  unfold Doc.pushAttr
  refine noClass_mapNodeAt (fun m hm => ?_) h
  cases m <;> simpa [nodeClasses] using hm

/-- createNewEmptyList never attaches a class when the multi-level plugin
flag is false (its only call site). -/
theorem noClass_createNewEmptyList {d : Doc} {ls : ListStyleDescriptor} {c : String}
    (h : NoClassAnywhere d c) : NoClassAnywhere (createNewEmptyList d ls false).1 c := by
  unfold createNewEmptyList
  simp only [Bool.and_false, Bool.false_eq_true, if_false]
  have h1 : NoClassAnywhere (d.createElement ls.type).1 c := noClass_createElement h
  cases hs : ls.style with
  | none =>
    cases hn : ls.startIndex with
    | none => exact h1
    | some n =>
      by_cases hgt : n > 1
      · simpa [hgt] using noClass_pushAttr h1
      · simpa [hgt] using h1
  | some sty =>
    have h2 : NoClassAnywhere
        ((d.createElement ls.type).1.setStyleStr (d.createElement ls.type).2
          ("list-style-type: " ++ sty ++ ";")) c := noClass_setStyleStr h1
    cases hn : ls.startIndex with
    | none => exact h2
    | some n =>
      by_cases hgt : n > 1
      · simpa [hgt] using noClass_pushAttr h2
      · simpa [hgt] using h2

theorem noClass_foldl {c : String} {α : Type} (step : Doc → α → Doc)
    (hstep : ∀ d x, NoClassAnywhere d c → NoClassAnywhere (step d x) c) :
    ∀ (l : List α) (d : Doc), NoClassAnywhere d c → NoClassAnywhere (l.foldl step d) c := by
  intro l
  induction l with
  | nil => intro d h; exact h
  | cons hd tl ih => intro d h; exact ih (step d hd) (hstep d hd h)

theorem noClass_removeMsoListIgnoreSpans {d : Doc} {el : Nat} {c : String}
    (h : NoClassAnywhere d c) : NoClassAnywhere (removeMsoListIgnoreSpans d el) c := by
  unfold removeMsoListIgnoreSpans
  refine noClass_foldl _ (fun dd x hdd => ?_) _ d h
  dsimp only
  split
  · split
    · exact noClass_removeChild hdd
    · exact hdd
  · exact hdd

/-- The class-removal loop only ever keeps classes that were already there. -/
theorem cleanClassesFromAux_subset :
    ∀ (fuel k : Nat) (xs : List String) (x : String),
      x ∈ cleanClassesFromAux fuel k xs → x ∈ xs
  | 0, _, _, _, h => h
  | fuel + 1, k, xs, x, h => by
    unfold cleanClassesFromAux at h
    split at h
    · split at h
      · have := cleanClassesFromAux_subset fuel (k + 1) _ x h
        exact (List.mem_filter.mp this).1
      · exact cleanClassesFromAux_subset fuel (k + 1) xs x h
    · exact h

theorem noClass_cleanupElement {d : Doc} {i : Nat} {c : String}
    (h : NoClassAnywhere d c) : NoClassAnywhere (cleanupElement d i) c := by
  unfold cleanupElement
  refine noClass_mapNodeAt (fun m hm => ?_) (noClass_mapNodeAt (fun m hm => ?_) h)
  · cases m <;> simpa [nodeClasses] using hm
  · cases m with
    | text t => simpa [nodeClasses] using hm
    | element tag style classes attrs ch =>
      simp only [nodeClasses] at hm ⊢
      intro hc
      exact hm (cleanClassesFromAux_subset _ _ _ _ hc)

theorem noClass_removeMSAttributes {d d' : Doc} {c : String}
    (h : NoClassAnywhere d c) (hrun : removeMSAttributes d = .ok d') :
    NoClassAnywhere d' c := by
  have hfold : ∀ (l : List Nat) (acc : Doc × List Nat),
      NoClassAnywhere acc.1 c →
      NoClassAnywhere (l.foldl (fun acc i =>
        let d' := cleanupElement acc.1 i
        if unwrapCondition d' i then (d', acc.2 ++ [i]) else (d', acc.2)) acc).1 c := by
    intro l
    induction l with
    | nil => intro acc hacc; exact hacc
    | cons hd tl ih =>
      intro acc hacc
      dsimp only
      have h1 : NoClassAnywhere (cleanupElement acc.1 hd) c := noClass_cleanupElement hacc
      by_cases hcond : unwrapCondition (cleanupElement acc.1 hd) hd
      · simpa [hcond] using ih _ h1
      · simpa [hcond] using ih _ h1
  have hrem : ∀ (l : List Nat) (dd : Doc),
      NoClassAnywhere dd c →
      (l.foldlM (fun dd i =>
        match dd.parentOf i with
        | some p => pure (dd.removeChild p i)
        | none => Except.error
            "TypeError: Cannot read properties of null (reading removeChild)") dd
        = Except.ok d') → NoClassAnywhere d' c := by
    intro l
    induction l with
    | nil =>
      intro dd hdd hr
      simp only [List.foldlM_nil] at hr
      cases hr
      exact hdd
    | cons hd tl ih =>
      intro dd hdd hr
      simp only [List.foldlM_cons] at hr
      cases hp : dd.parentOf hd with
      | none =>
        rw [hp] at hr
        exact Except.noConfusion hr
      | some p =>
        rw [hp] at hr
        exact ih _ (noClass_removeChild hdd) hr
  unfold removeMSAttributes at hrun
  exact hrem _ _ (hfold _ _ h) hrun

theorem noClass_insertNewList {d d' : Doc} {stack : Stack} {indent : Int}
    {element listElement : Nat} {c : String}
    (h : NoClassAnywhere d c)
    (hrun : insertNewList d stack indent element listElement = .ok d') :
    NoClassAnywhere d' c := by
  unfold insertNewList at hrun
  split at hrun
  · cases hp : d.parentOf element with
    | none => rw [hp] at hrun; exact Except.noConfusion hrun
    | some parent =>
      rw [hp] at hrun
      dsimp only at hrun
      split at hrun
      · cases hrun; exact noClass_appendChild h
      · cases hrun; exact noClass_insertBefore h
  · split at hrun
    · split at hrun
      · cases hrun; exact noClass_appendChild h
      · cases hrun; exact h
    · cases hrun; exact h

theorem noClass_appendListItem {d : Doc} {stack : Stack} {counters : Counters}
    {cand : ListLikeElement} {indent : Int} {key : String} {c : String}
    (h : NoClassAnywhere d c) :
    NoClassAnywhere (appendListItem d stack counters cand indent key).doc c := by
  unfold appendListItem
  dsimp only
  split
  all_goals {
    refine noClass_removeMsoListIgnoreSpans ?_
    split
    all_goals split
    all_goals
      first
        | exact noClass_appendChild (noClass_appendChild h)
        | exact noClass_appendChild h
        | exact h
        | exact noClass_appendChild (noClass_appendChild (noClass_createElement h))
        | exact noClass_appendChild (noClass_createElement h)
        | exact noClass_createElement h
  }

theorem noClass_processItem {styles : String} {st st' : TState}
    {cand : ListLikeElement} {c : String}
    (h : NoClassAnywhere st.doc c)
    (hrun : processItem styles st cand = .ok st') :
    NoClassAnywhere st'.doc c := by
  unfold processItem at hrun
  cases hind : cand.indent with
  | none =>
    rw [hind] at hrun
    cases hrun
    exact h
  | some itemIndent =>
    rw [hind] at hrun
    cases hc : isListContinuation st.doc cand.element with
    | error e => rw [hc] at hrun; exact Except.noConfusion hrun
    | ok cont =>
      rw [hc] at hrun
      dsimp only [bind, Except.bind, pure, Except.pure] at hrun
      repeat' split at hrun
      all_goals try exact Except.noConfusion hrun
      all_goals cases hrun
      all_goals
        first
          | exact noClass_appendListItem h
          | exact noClass_appendListItem
              (noClass_insertNewList (noClass_createNewEmptyList h) (by assumption))

theorem noClass_transform {d d' : Doc} {styles : String} {c : String}
    (h : NoClassAnywhere d c)
    (hrun : transformListItemLikeLElementsIntoLists d styles = .ok d') :
    NoClassAnywhere d' c := by
  unfold transformListItemLikeLElementsIntoLists at hrun
  dsimp only [bind, Except.bind, pure, Except.pure] at hrun
  split at hrun
  · cases hrun; exact h
  · have hfold : ∀ (l : List ListLikeElement) (st : TState),
        NoClassAnywhere st.doc c →
        ∀ fin, l.foldlM (processItem styles) st = Except.ok fin →
          NoClassAnywhere fin.doc c := by
      intro l
      induction l with
      | nil =>
        intro st hst fin hr
        simp only [List.foldlM_nil] at hr
        cases hr
        exact hst
      | cons hd tl ih =>
        intro st hst fin hr
        simp only [List.foldlM_cons] at hr
        cases hp : processItem styles st hd with
        | error e => rw [hp] at hr; exact Except.noConfusion hr
        | ok st1 =>
          rw [hp] at hr
          exact ih st1 (noClass_processItem hst hp) fin hr
    cases hfin : List.foldlM (processItem styles)
        { doc := d, stack := [], counters := [] } (findAllItemLikeElements d) with
    | error e => rw [hfin] at hrun; exact Except.noConfusion hrun
    | ok fin =>
      rw [hfin] at hrun
      cases hrun
      exact hfold (findAllItemLikeElements d) { doc := d, stack := [], counters := [] } h fin hfin

/-- normalize (with the plugin flag hard-coded false) never adds any class:
in particular no element can gain the class legal-list. -/
theorem noClass_normalize {d d' : Doc} {styles : String} {c : String}
    (h : NoClassAnywhere d c)
    (hrun : MSWordNormalizer.normalize d styles = .ok d') :
    NoClassAnywhere d' c := by
  unfold MSWordNormalizer.normalize at hrun
  dsimp only [bind, Except.bind] at hrun
  cases ht : transformListItemLikeLElementsIntoLists d styles with
  | error e => rw [ht] at hrun; exact Except.noConfusion hrun
  | ok d1 =>
    rw [ht] at hrun
    exact noClass_removeMSAttributes (noClass_transform h ht) hrun

/-- C10 (amended): list-container creation always runs with the multi-level
plugin flag false, so normalize never attaches the legal-list class: if no
node of the input document carries it, no node of the output does. -/
theorem c10_never_adds_legal_list (d : Doc) (s : String) (d' : Doc)
    (hin : NoClassAnywhere d "legal-list")
    (hrun : MSWordNormalizer.normalize d s = .ok d') :
    NoClassAnywhere d' "legal-list" :=
  noClass_normalize hin hrun

/-- C10 witness: the amended theorem applied to a concrete class-free input. -/
theorem c10_never_adds_legal_list_witness :
    NoClassAnywhere exDocBulletMarker "legal-list" ∧
    NoClassAnywhere bulletOutDoc "legal-list" := by
  refine ⟨?_, ?_⟩
  · intro n hn
    fin_cases hn <;> simp [nodeClasses]
  · exact c10_never_adds_legal_list exDocBulletMarker stylesBullet bulletOutDoc
      (by intro n hn; fin_cases hn <;> simp [nodeClasses]) (by rfl)

/-! ## Helper lemmas for class cleanup and style-declaration round trips -/

theorem chain'_get_pairs {α : Type} {R : α → α → Prop} {l : List α}
    (h : List.Chain' R l) :
    ∀ i a b, l.get? i = some a → l.get? (i + 1) = some b → R a b := by
  intro i a b ha hb
  have hi : i + 1 < l.length := by
    by_contra hcon
    rw [List.get?_eq_none.mpr (by omega)] at hb
    exact Option.noConfusion hb
  have h1 : i < l.length - 1 := by omega
  have hr := (List.chain'_iff_get.mp h) i h1
  rw [List.get?_eq_get (by omega : i < l.length)] at ha
  rw [List.get?_eq_get hi] at hb
  obtain rfl := Option.some.inj ha
  obtain rfl := Option.some.inj hb
  exact hr

theorem chain'_of_get_pairs {α : Type} {R : α → α → Prop} {l : List α}
    (h : ∀ i a b, l.get? i = some a → l.get? (i + 1) = some b → R a b) :
    List.Chain' R l := by
  rw [List.chain'_iff_get]
  intro i hi
  exact h i _ _ (List.get?_eq_get (by omega)) (List.get?_eq_get (by omega))

theorem splitChar_ne_nil (sep : Char) (cs : List Char) : splitChar sep cs ≠ [] := by
  cases cs with
  | nil => simp [splitChar]
  | cons c cs =>
    unfold splitChar
    by_cases hc : c == sep
    · simp [hc]
    · simp only [hc, Bool.false_eq_true, if_false]
      cases splitChar sep cs <;> simp

theorem splitChar_not_mem (sep : Char) :
    ∀ (cs : List Char) (p : List Char), p ∈ splitChar sep cs → sep ∉ p := by
  intro cs
  induction cs with
  | nil =>
    intro p hp
    simp only [splitChar, List.mem_singleton] at hp
    subst hp
    simp
  | cons c cs ih =>
    intro p hp
    unfold splitChar at hp
    by_cases hc : c == sep
    · simp only [hc, if_true, List.mem_cons] at hp
      rcases hp with rfl | hp
      · simp
      · exact ih p hp
    · simp only [hc, Bool.false_eq_true, if_false] at hp
      cases hrest : splitChar sep cs with
      | nil => exact absurd hrest (splitChar_ne_nil sep cs)
      | cons r rs =>
        rw [hrest] at hp
        rcases List.mem_cons.mp hp with rfl | hp
        · intro hmem
          rcases List.mem_cons.mp hmem with rfl | hmem
          · simp at hc
          · exact ih r (hrest ▸ List.mem_cons_self r rs) hmem
        · exact ih p (hrest ▸ List.mem_cons_of_mem r hp)

theorem splitChar_of_not_mem (sep : Char) (p : List Char) (h : sep ∉ p) :
    splitChar sep p = [p] := by
  induction p with
  | nil => rfl
  | cons c p ih =>
    have hc : (c == sep) = false := by
      simp only [beq_eq_false_iff_ne, ne_eq]
      intro hcc
      exact h (hcc ▸ List.mem_cons_self c p)
    have hp : sep ∉ p := fun hm => h (List.mem_cons_of_mem c hm)
    unfold splitChar
    rw [ih hp]
    simp [hc]

theorem splitChar_append_sep (sep : Char) (p t : List Char) (h : sep ∉ p) :
    splitChar sep (p ++ sep :: t) = p :: splitChar sep t := by
  induction p with
  | nil =>
    show splitChar sep (sep :: t) = [] :: splitChar sep t
    conv_lhs => unfold splitChar
    simp
  | cons c p ih =>
    have hc : (c == sep) = false := by
      simp only [beq_eq_false_iff_ne, ne_eq]
      intro hcc
      exact h (hcc ▸ List.mem_cons_self c p)
    have hp : sep ∉ p := fun hm => h (List.mem_cons_of_mem c hm)
    show splitChar sep (c :: (p ++ sep :: t)) = (c :: p) :: splitChar sep t
    conv_lhs => unfold splitChar
    dsimp only
    simp only [hc, Bool.false_eq_true, if_false]
    rw [ih hp]

theorem splitChar_joinChar (sep : Char) :
    ∀ (ps : List (List Char)), ps ≠ [] → (∀ p ∈ ps, sep ∉ p) →
      splitChar sep (joinChar sep ps) = ps := by
  intro ps
  induction ps with
  | nil => intro h; exact absurd rfl h
  | cons p ps ih =>
    intro _ hmem
    cases ps with
    | nil =>
      show splitChar sep (joinChar sep [p]) = [p]
      rw [show joinChar sep [p] = p from rfl]
      exact splitChar_of_not_mem sep p (hmem p (List.mem_cons_self p []))
    | cons q qs =>
      show splitChar sep (p ++ sep :: joinChar sep (q :: qs)) = p :: q :: qs
      rw [splitChar_append_sep sep p _ (hmem p (List.mem_cons_self p _))]
      rw [ih (by simp) (fun r hr => hmem r (List.mem_cons_of_mem p hr))]

/-- With distinct classes and no two adjacent matching ones, the live
iteration removes exactly the matching classes from position k onward. -/
theorem cleanClassesFromAux_filter :
    ∀ (fuel k : Nat) (xs : List String),
      xs.length - k ≤ fuel → xs.Nodup → List.Chain' BMsoApart xs →
      cleanClassesFromAux fuel k xs =
        xs.take k ++ (xs.drop k).filter (fun s => !hasBMso s) := by
  intro fuel
  induction fuel with
  | zero =>
    intro k xs hfuel _ _
    have hk : xs.length ≤ k := by omega
    rw [List.take_all_of_le hk, List.drop_eq_nil_of_le hk]
    simp [cleanClassesFromAux]
  | succ fuel ih =>
    intro k xs hfuel hnd hch
    unfold cleanClassesFromAux
    by_cases hk : k < xs.length
    · rw [dif_pos hk]
      have hdropk : xs.drop k = xs.get ⟨k, hk⟩ :: xs.drop (k + 1) :=
        List.drop_eq_get_cons hk
      have hgetk : xs.get? k = some (xs.get ⟨k, hk⟩) := List.get?_eq_get hk
      generalize hc : xs.get ⟨k, hk⟩ = c at hdropk hgetk ⊢
      cases hm : hasBMso c with
      | false =>
        rw [if_neg (by simp [hm])]
        rw [ih (k + 1) xs (by omega) hnd hch]
        conv_rhs => rw [hdropk]
        rw [List.filter_cons]
        simp only [hm, Bool.not_false, if_true]
        rw [List.append_cons]
        congr 1
        rw [List.take_succ]
        rw [show xs[k]? = some c by rw [← List.get?_eq_getElem?]; exact hgetk]
        rfl
      | true =>
        rw [if_pos (by simp [hm])]
        have hxs : xs.take k ++ c :: xs.drop (k + 1) = xs := by
          rw [← hdropk]
          exact List.take_append_drop k xs
        have hnd' : (xs.take k ++ c :: xs.drop (k + 1)).Nodup := by
          rw [hxs]; exact hnd
        have hparts := List.nodup_append.mp hnd'
        have hcdrop : c ∉ xs.drop (k + 1) := (List.nodup_cons.mp hparts.2.1).1
        have hctake : c ∉ xs.take k := fun hmem =>
          hparts.2.2 hmem (List.mem_cons_self _ _)
        have h1 : (xs.take k).filter (· ≠ c) = xs.take k :=
          List.filter_eq_self.mpr (fun a ha => by
            simp only [ne_eq, decide_not, Bool.not_eq_eq_eq_not, Bool.not_true,
              decide_eq_false_iff_not]
            intro hcc
            exact hctake (hcc ▸ ha))
        have h2 : (xs.drop (k + 1)).filter (· ≠ c) = xs.drop (k + 1) :=
          List.filter_eq_self.mpr (fun a ha => by
            simp only [ne_eq, decide_not, Bool.not_eq_eq_eq_not, Bool.not_true,
              decide_eq_false_iff_not]
            intro hcc
            exact hcdrop (hcc ▸ ha))
        have hys : xs.filter (· ≠ c) = xs.take k ++ xs.drop (k + 1) := by
          conv_lhs => rw [← hxs]
          rw [List.filter_append, List.filter_cons, h1, h2]
          simp
        have hlt : (xs.take k).length = k := by
          rw [List.length_take]
          omega
        have hlen : (xs.filter (· ≠ c)).length - (k + 1) ≤ fuel := by
          rw [hys, List.length_append, hlt, List.length_drop]
          omega
        have hndy : (xs.filter (· ≠ c)).Nodup := hnd.filter _
        have hgety : ∀ m x, (xs.take k ++ xs.drop (k + 1)).get? m = some x →
            (m < k ∧ xs.get? m = some x) ∨ (k ≤ m ∧ xs.get? (m + 1) = some x) := by
          intro m x hx
          by_cases hm2 : m < k
          · left
            refine ⟨hm2, ?_⟩
            rwa [List.get?_append (by rw [hlt]; exact hm2), List.get?_take hm2] at hx
          · right
            refine ⟨by omega, ?_⟩
            rw [List.get?_append_right (by rw [hlt]; omega), hlt, List.get?_drop] at hx
            rwa [show k + 1 + (m - k) = m + 1 by omega] at hx
        have hchy : List.Chain' BMsoApart (xs.filter (· ≠ c)) := by
          rw [hys]
          apply chain'_of_get_pairs
          intro j a b hja hjb
          rcases hgety j a hja with ⟨hj1, hxa⟩ | ⟨hj1, hxa⟩
          · rcases hgety (j + 1) b hjb with ⟨_, hxb⟩ | ⟨hj2, hxb⟩
            · exact chain'_get_pairs hch j a b hxa hxb
            · intro hab
              have hjk : j + 1 = k := by omega
              have hxc : xs.get? (j + 1) = some c := by
                rw [hjk]; exact hgetk
              exact (chain'_get_pairs hch j a c hxa hxc) ⟨hab.1, hm⟩
          · rcases hgety (j + 1) b hjb with ⟨hj2, _⟩ | ⟨_, hxb⟩
            · omega
            · exact chain'_get_pairs hch (j + 1) a b hxa hxb
        rw [ih (k + 1) _ hlen hndy hchy, hys]
        rw [List.take_append_eq_append_take, List.drop_append_eq_append_drop, hlt]
        rw [List.take_all_of_le (by omega : (xs.take k).length ≤ k + 1)]
        rw [List.drop_eq_nil_of_le (by omega : (xs.take k).length ≤ k + 1)]
        rw [show k + 1 - k = 1 by omega]
        rw [List.nil_append, List.drop_drop]
        conv_rhs => rw [hdropk]
        rw [List.filter_cons]
        simp only [hm, Bool.not_true, Bool.false_eq_true, if_false]
        cases hd2 : xs.drop (k + 1) with
        | nil =>
          have hrest0 : xs.drop (k + 1 + 1) = [] := by
            rw [← List.drop_drop 1 (k + 1) xs, hd2]
            rfl
          simp [hrest0, hd2]
        | cons y rest =>
          have hrest : xs.drop (k + 1 + 1) = rest := by
            rw [← List.drop_drop 1 (k + 1) xs, hd2]
            rfl
          have hy : xs.get? (k + 1) = some y := by
            have h0 : (xs.drop (k + 1)).get? 0 = some y := by rw [hd2]; rfl
            rwa [List.get?_drop] at h0
          have hnoty : hasBMso y = false := by
            have hpair := chain'_get_pairs hch k c y hgetk hy
            unfold BMsoApart at hpair
            cases hyy : hasBMso y with
            | false => rfl
            | true => exact absurd ⟨hm, hyy⟩ hpair
          rw [hrest]
          rw [List.filter_cons]
          simp only [hnoty, Bool.not_false, if_true]
          simp
    · rw [dif_neg hk]
      have hk' : xs.length ≤ k := by omega
      rw [List.take_all_of_le hk', List.drop_eq_nil_of_le hk']
      simp

theorem jsTrim_mem {x : Char} {l : List Char} (h : x ∈ jsTrim l) : x ∈ l := by
  unfold jsTrim at h
  rw [List.mem_reverse] at h
  have h1 := (List.dropWhile_sublist jsWhitespace).mem h
  rw [List.mem_reverse] at h1
  exact (List.dropWhile_sublist jsWhitespace).mem h1

/-- The rewritten style string parses back (on semicolons) to exactly the
surviving declarations, whenever at least one declaration survives. -/
theorem removeMSOStyles_decls (s : String) (hne : surviveMsoFilter s ≠ []) :
    splitChar ';' (removeMSOStyles s).toList = surviveMsoFilter s := by
  unfold removeMSOStyles
  refine splitChar_joinChar ';' (surviveMsoFilter s) hne ?_
  intro p hp
  have hp' := (List.mem_filter.mp hp).1
  obtain ⟨q, hq, rfl⟩ := List.mem_map.mp hp'
  intro hmem
  exact splitChar_not_mem ';' s.toList q hq (jsTrim_mem hmem)

/-- C8 (amended): with distinct classes no two adjacent of which match,
cleanup removes exactly the classes containing word-boundary mso; and the
rewritten inline style consists of exactly the declarations whose key lacks
word-boundary mso, kept verbatim. -/
theorem c8_amended :
    (∀ xs : List String, xs.Nodup → List.Chain' BMsoApart xs →
      cleanClassesFrom 0 xs = xs.filter (fun s => !hasBMso s)) ∧
    (∀ s : String, surviveMsoFilter s ≠ [] →
      splitChar ';' (removeMSOStyles s).toList = surviveMsoFilter s) := by
  constructor
  · intro xs hnd hch
    unfold cleanClassesFrom
    rw [cleanClassesFromAux_filter (xs.length - 0) 0 xs (by omega) hnd hch]
    simp
  · exact removeMSOStyles_decls

/-- C8 witness: the amended facts at concrete class lists and styles. -/
theorem c8_amended_witness :
    (["MsoNormal", "keep", "mso-x"] : List String).Nodup ∧
    List.Chain' BMsoApart ["MsoNormal", "keep", "mso-x"] ∧
    cleanClassesFrom 0 ["MsoNormal", "keep", "mso-x"] =
      (["MsoNormal", "keep", "mso-x"] : List String).filter (fun s => !hasBMso s) ∧
    splitChar ';' (removeMSOStyles "color:red;mso-x:1").toList =
      surviveMsoFilter "color:red;mso-x:1" := by
  have hch : List.Chain' BMsoApart ["MsoNormal", "keep", "mso-x"] := by
    simp only [List.chain'_cons, List.chain'_singleton, and_true]
    exact ⟨by decide, by decide⟩
  refine ⟨by decide, hch, ?_, ?_⟩
  · exact c8_amended.1 ["MsoNormal", "keep", "mso-x"] (by decide) hch
  · exact c8_amended.2 "color:red;mso-x:1" (by decide)

/-! ## Stack invariant helper lemmas -/

theorem StackInv_nil : StackInv ([] : Stack) := by
  intro i hi
  simp at hi

theorem StackInv_take (s : Stack) (n : Nat) (h : StackInv s) : StackInv (s.take n) := by
  intro i hi
  rw [List.length_take] at hi
  have hin : i < n := lt_of_lt_of_le hi (min_le_left _ _)
  have hil : i < s.length := lt_of_lt_of_le hi (min_le_right _ _)
  rw [List.get?_take hin]
  exact h i hil

theorem stackGet_eq_some {s : Stack} {i : Int} {f : Frame} (h : stackGet s i = some f) :
    0 ≤ i ∧ s.get? i.toNat = some (some f) := by
  unfold stackGet at h
  split at h
  · exact Option.noConfusion h
  · refine ⟨by omega, ?_⟩
    cases hg : s.get? i.toNat with
    | none => rw [hg] at h; simp at h
    | some o =>
      rw [hg] at h
      cases o with
      | none => simp at h
      | some g => simp at h; rw [h]

theorem stackSet_get?_of_ne (s : Stack) (i : Int) (f : Frame) (j : Nat)
    (hj : j < s.length) (hne : (j : Int) ≠ i) :
    (stackSet s i f).get? j = s.get? j := by
  unfold stackSet
  split
  · rfl
  · split
    · exact List.get?_set_ne _ _ (by omega)
    · rw [List.get?_append (by
        rw [List.length_append, List.length_replicate]
        omega)]
      exact List.get?_append (by omega)

theorem StackInv_stackSet (s : Stack) (i : Int) (f : Frame) (h : StackInv s)
    (hi0 : 0 ≤ i) (hile : i.toNat ≤ s.length) (hd : f.depth = i.toNat) :
    StackInv (stackSet s i f) := by
  unfold stackSet
  rw [if_neg (by omega)]
  by_cases hlt : i.toNat < s.length
  · rw [if_pos hlt]
    intro j hj
    rw [List.length_set] at hj
    by_cases hji : j = i.toNat
    · subst hji
      rw [List.get?_set_eq]
      rw [List.get?_eq_get hj]
      simp [hd]
    · rw [List.get?_set_ne _ _ (fun hcc => hji hcc.symm)]
      exact h j hj
  · have heq : i.toNat = s.length := by omega
    rw [if_neg hlt, heq]
    simp only [Nat.sub_self, List.replicate_zero, List.append_nil]
    intro j hj
    rw [List.length_append, List.length_singleton] at hj
    by_cases hji : j = s.length
    · subst hji
      rw [List.get?_concat_length]
      simp [hd, heq]
    · have hjlt : j < s.length := by omega
      rw [List.get?_append hjlt]
      exact h j hjlt

theorem StackInv_pushItem (s : Stack) (i : Int) (li : Nat) (h : StackInv s) :
    StackInv (stackPushItem s i li) := by
  unfold stackPushItem
  cases hg : stackGet s i with
  | none => exact h
  | some f =>
    obtain ⟨hi0, hgi⟩ := stackGet_eq_some hg
    intro j hj
    rw [List.length_set] at hj
    by_cases hji : j = i.toNat
    · subst hji
      rw [List.get?_set_eq, hgi]
      have hdep := h i.toNat hj
      rw [hgi] at hdep
      simp_all
    · rw [List.get?_set_ne _ _ (fun hcc => hji hcc.symm)]
      exact h j hj

theorem stackPushItem_get?_of_ne (s : Stack) (i : Int) (li : Nat) (j : Nat)
    (hne : (j : Int) ≠ i) :
    (stackPushItem s i li).get? j = s.get? j := by
  unfold stackPushItem
  cases hg : stackGet s i with
  | none => rfl
  | some f =>
    obtain ⟨hi0, _⟩ := stackGet_eq_some hg
    exact List.get?_set_ne _ _ (by omega)

theorem stackPushItem_length (s : Stack) (i : Int) (li : Nat) :
    (stackPushItem s i li).length = s.length := by
  unfold stackPushItem
  cases stackGet s i with
  | none => rfl
  | some f => exact List.length_set s _ _

/-- The appendListItem phase only pushes the LI into the frame at the
processed depth: its stack is a stackPushItem of its input stack. -/
theorem appendListItem_stack (d : Doc) (s : Stack) (c : Counters)
    (cand : ListLikeElement) (ind : Int) (key : String) :
    ∃ li, (appendListItem d s c cand ind key).stack = stackPushItem s ind li := by
  unfold appendListItem
  dsimp only
  split <;> exact ⟨_, rfl⟩

theorem setStackLength_ok {s : Stack} {n : Int} {r : Stack}
    (h : setStackLength s n = .ok r) :
    0 ≤ n ∧ (n.toNat ≤ s.length → r = s.take n.toNat) := by
  unfold setStackLength at h
  split at h
  · exact Except.noConfusion h
  · split at h
    · cases h
      exact ⟨by omega, fun _ => rfl⟩
    · cases h
      refine ⟨by omega, fun hle => ?_⟩
      omega

set_option maxHeartbeats 1000000 in
/-- C5: processing one candidate preserves the stack invariant (every
position holds a frame pushed at that normalized depth, no holes), entries
strictly below the processed top are an untouched prefix of the incoming (or
reset) stack, and the normalized depth never exceeds the stack length it was
computed from. -/
theorem c5_stack_invariant (stylesString : String) (st : TState)
    (cand : ListLikeElement) (st' : TState) (hInv : StackInv st.stack)
    (hRun : processItem stylesString st cand = .ok st') :
    StackInv st'.stack ∧
    (∃ s₀, (s₀ = st.stack ∨ s₀ = []) ∧
      ∀ i, i + 1 < st'.stack.length → st'.stack.get? i = s₀.get? i) ∧
    (∀ (itemIndent : Int) (len : Nat), normalizedDepth itemIndent len ≤ (len : Int)) := by
  have harith : ∀ (itemIndent : Int) (len : Nat),
      normalizedDepth itemIndent len ≤ (len : Int) := by
    intro a b
    unfold normalizedDepth
    exact min_le_right _ _
  unfold processItem at hRun
  cases hind : cand.indent with
  | none =>
    rw [hind] at hRun
    cases hRun
    exact ⟨hInv, ⟨st.stack, Or.inl rfl, fun i _ => rfl⟩, harith⟩
  | some itemIndent =>
    rw [hind] at hRun
    cases hc : isListContinuation st.doc cand.element with
    | error e => rw [hc] at hRun; exact Except.noConfusion hRun
    | ok cont =>
      rw [hc] at hRun
      dsimp only [bind, Except.bind, pure, Except.pure] at hRun
      set s0 : Stack := if cont = true then st.stack else [] with hs0
      have hs0Inv : StackInv s0 := by
        rw [hs0]
        by_cases hcnt : cont = true
        · simp [hcnt, hInv]
        · simp [hcnt]
          exact StackInv_nil
      have hs0Or : s0 = st.stack ∨ s0 = [] := by
        rw [hs0]
        by_cases hcnt : cont = true
        · simp [hcnt]
        · simp [hcnt]
      set nd : Int := normalizedDepth (itemIndent : Int) s0.length with hndDef
      have hndle : nd ≤ (s0.length : Int) := harith _ _
      have hndlow : -1 ≤ nd := by
        rw [hndDef]
        unfold normalizedDepth
        have : (-1 : Int) ≤ (itemIndent : Int) - 1 := by omega
        have h2 : (-1 : Int) ≤ (s0.length : Int) := by omega
        omega
      split at hRun
      · -- the id-change trimming ran
        next htrim =>
        have hndlt : nd < (s0.length : Int) := by
          simp only [Bool.and_eq_true, decide_eq_true_eq] at htrim
          exact htrim.1
        split at hRun
        · next e heq => exact Except.noConfusion hRun
        · next stack1 heq =>
          obtain ⟨hn0, hshr⟩ := setStackLength_ok heq
          have hstack1 : stack1 = s0.take nd.toNat := hshr (by omega)
          have hlen1 : stack1.length = nd.toNat := by
            rw [hstack1, List.length_take]
            omega
          rw [if_neg (by rw [hlen1]; omega)] at hRun
          split at hRun
          · next e heq2 => exact Except.noConfusion hRun
          · next ls heq2 =>
            split at hRun
            · -- a new list is created at depth nd = stack1.length
              next hcre =>
              split at hRun
              · next e heq3 => exact Except.noConfusion hRun
              · next d2 heq3 =>
                cases hRun
                obtain ⟨li, hstk⟩ := appendListItem_stack d2 _ _ cand nd _
                have hInv1 : StackInv stack1 := hstack1 ▸ StackInv_take s0 nd.toNat hs0Inv
                refine ⟨?_, ⟨s0, hs0Or, ?_⟩, harith⟩
                · rw [hstk]
                  exact StackInv_pushItem _ _ _
                    (StackInv_stackSet _ _ _ hInv1 hn0 (by omega) rfl)
                · intro i hi
                  rw [hstk] at hi ⊢
                  rw [stackPushItem_length] at hi
                  have hsetlen : (stackSet stack1 nd
                      { id := cand.id, order := cand.order, indent := some itemIndent,
                        element := cand.element,
                        listElement := (createNewEmptyList st.doc
                          (resolveStartIndex nd ls cand.id st.counters
                            (originalListIdKey cand.id itemIndent)) false).2,
                        listItemElements := [], depth := nd.toNat }).length
                      = nd.toNat + 1 := by
                    unfold stackSet
                    rw [if_neg (by omega), if_neg (by omega)]
                    rw [List.length_append, List.length_append, List.length_replicate,
                      hlen1, List.length_singleton]
                    omega
                  rw [hsetlen] at hi
                  have hine : (i : Int) ≠ nd := by omega
                  rw [stackPushItem_get?_of_ne _ _ _ _ hine]
                  rw [stackSet_get?_of_ne _ _ _ _ (by omega) hine]
                  rw [hstack1, List.get?_take (by omega)]
            · -- no creation: impossible after trimming to exactly depth nd
              next hcre =>
              exfalso
              simp only [Bool.not_eq_true, Bool.or_eq_false_iff] at hcre
              have h1 := of_decide_eq_false hcre.1
              rw [hlen1] at h1
              omega
      · -- no id-change trimming
        next htrim =>
        split at hRun
        · -- closing several levels at once: truncate to nd + 1
          next h81 =>
          split at hRun
          · next e heq => exact Except.noConfusion hRun
          · next stack2 heq =>
            obtain ⟨hn0, hshr⟩ := setStackLength_ok heq
            have hstack2 : stack2 = s0.take (nd + 1).toNat := hshr (by omega)
            have hlen2 : stack2.length = (nd + 1).toNat := by
              rw [hstack2, List.length_take]
              omega
            cases hRun
            obtain ⟨li, hstk⟩ := appendListItem_stack st.doc _ _ cand nd _
            refine ⟨?_, ⟨s0, hs0Or, ?_⟩, harith⟩
            · rw [hstk]
              exact StackInv_pushItem _ _ _
                (hstack2 ▸ StackInv_take s0 (nd + 1).toNat hs0Inv)
            · intro i hi
              rw [hstk] at hi ⊢
              rw [stackPushItem_length, hlen2] at hi
              have hine : (i : Int) ≠ nd := by omega
              rw [stackPushItem_get?_of_ne _ _ _ _ hine]
              rw [hstack2, List.get?_take (by omega)]
        · next h81 =>
          split at hRun
          · next e heq2 => exact Except.noConfusion hRun
          · next ls heq2 =>
            split at hRun
            · -- creation at depth nd ∈ {length - 1, length}
              next hcre =>
              split at hRun
              · next e heq3 => exact Except.noConfusion hRun
              · next d2 heq3 =>
                cases hRun
                obtain ⟨li, hstk⟩ := appendListItem_stack d2 _ _ cand nd _
                by_cases hneg : nd < 0
                · -- only possible with an empty stack: everything stays empty
                  have hlen0 : s0.length = 0 := by omega
                  have hs0nil : s0 = [] := List.length_eq_zero.mp hlen0
                  have hset : stackSet s0 nd
                      { id := cand.id, order := cand.order, indent := some itemIndent,
                        element := cand.element,
                        listElement := (createNewEmptyList st.doc
                          (resolveStartIndex nd ls cand.id st.counters
                            (originalListIdKey cand.id itemIndent)) false).2,
                        listItemElements := [], depth := nd.toNat } = s0 := by
                    unfold stackSet
                    rw [if_pos hneg]
                  refine ⟨?_, ⟨s0, hs0Or, ?_⟩, harith⟩
                  · rw [hstk, hset, hs0nil]
                    exact StackInv_pushItem _ _ _ StackInv_nil
                  · intro i hi
                    rw [hstk, hset, hs0nil] at hi
                    rw [stackPushItem_length] at hi
                    simp at hi
                · have hn0 : 0 ≤ nd := by omega
                  have hndleN : nd.toNat ≤ s0.length := by omega
                  refine ⟨?_, ⟨s0, hs0Or, ?_⟩, harith⟩
                  · rw [hstk]
                    exact StackInv_pushItem _ _ _
                      (StackInv_stackSet _ _ _ hs0Inv hn0 hndleN rfl)
                  · intro i hi
                    rw [hstk] at hi ⊢
                    rw [stackPushItem_length] at hi
                    have hsetlen : ∀ fr : Frame, (stackSet s0 nd fr).length =
                        if nd.toNat < s0.length then s0.length else nd.toNat + 1 := by
                      intro fr
                      unfold stackSet
                      rw [if_neg (by omega)]
                      by_cases hlt : nd.toNat < s0.length
                      · rw [if_pos hlt, List.length_set]
                        simp [hlt]
                      · rw [if_neg hlt]
                        rw [List.length_append, List.length_append,
                          List.length_replicate, List.length_singleton]
                        simp only [hlt, if_false]
                        omega
                    rw [hsetlen] at hi
                    have hilt : (i : Int) < nd := by
                      by_cases hlt : nd.toNat < s0.length
                      · simp only [hlt, if_true] at hi
                        have : nd = (s0.length : Int) - 1 := by omega
                        omega
                      · simp only [hlt, if_false] at hi
                        omega
                    have hine : (i : Int) ≠ nd := by omega
                    rw [stackPushItem_get?_of_ne _ _ _ _ hine]
                    rw [stackSet_get?_of_ne _ _ _ _ (by omega) hine]
            · -- append to the existing list at depth nd = length - 1
              next hcre =>
              cases hRun
              obtain ⟨li, hstk⟩ := appendListItem_stack st.doc _ _ cand nd _
              simp only [Bool.not_eq_true, Bool.or_eq_false_iff] at hcre
              have hndle2 : nd ≤ (s0.length : Int) - 1 := by
                have := of_decide_eq_false hcre.1
                omega
              have hsome : ∃ f, stackGet s0 nd = some f := by
                have h2 := hcre.2
                rw [bne_eq_false_iff_eq] at h2
                cases hg : stackGet s0 nd with
                | none => rw [hg] at h2; simp at h2
                | some f => exact ⟨f, rfl⟩
              obtain ⟨f, hg⟩ := hsome
              obtain ⟨hn0, _⟩ := stackGet_eq_some hg
              refine ⟨?_, ⟨s0, hs0Or, ?_⟩, harith⟩
              · rw [hstk]
                exact StackInv_pushItem _ _ _ hs0Inv
              · intro i hi
                rw [hstk] at hi ⊢
                rw [stackPushItem_length] at hi
                have hine : (i : Int) ≠ nd := by
                  have h81' : ¬(nd < (s0.length : Int) - 1) := h81
                  omega
                rw [stackPushItem_get?_of_ne _ _ _ _ hine]

/-- A single-item document used to exercise one step of the main loop. -/
def c5doc : Doc :=
  { nodes := [
      .element "BODY" "" [] [] [1],
      .element "P" "mso-list:l1 lfo1 level1" [] [] [2],
      .text "One"],
    root := 0 }

def c5cand : ListLikeElement :=
  { id := some "l1", order := some "1", indent := some 1, element := 1 }

def c5st : TState := { doc := c5doc, stack := [], counters := [] }

/-- The state produced by one processItem step on c5doc, read off the run. -/
def c5out : TState :=
  match processItem "" c5st c5cand with
  | .ok s => s
  | .error _ => c5st

set_option maxRecDepth 100000 in
/-- The C5 theorem applied at a concrete one-item document, starting from the
empty stack: the step pushes a single frame of depth 0. -/
theorem c5_stack_invariant_witness :
    StackInv c5out.stack ∧
    (∃ s₀, (s₀ = ([] : Stack) ∨ s₀ = []) ∧
      ∀ i, i + 1 < c5out.stack.length → c5out.stack.get? i = s₀.get? i) ∧
    (∀ (itemIndent : Int) (len : Nat), normalizedDepth itemIndent len ≤ (len : Int)) :=
  c5_stack_invariant "" c5st c5cand c5out StackInv_nil (by rfl)
